import Mathlib

set_option maxRecDepth 4000

namespace Har2Tree

/-!
Verification development for the har2tree HAR-capture tree builder
(src/har2tree/parser.py).  The Python source is shallowly embedded:
strings are Lean `String`s (lists of characters), Python dictionaries
become association lists, object attribute bags become records with
explicit `Option`/`Bool` fields, exceptions become `Except`, and the
recursive tree resolver is written with an explicit fuel parameter.

Library behaviour that the source relies on is embedded as well, at the
level of detail the theorems need:
* `urllib.parse.urlparse` / `geturl` / `unquote_plus` and the Python
  string methods (`strip`, `split`, `rfind`, `replace`, `endswith`);
* `pathlib.Path(...).resolve()` restricted to absolute POSIX paths
  (the source only feeds it URL paths, which start with a slash; for a
  relative path CPython would prepend the process working directory);
* the single-byte core of percent decoding (`%XX` escapes are decoded
  byte-wise; multi-byte UTF-8 runs, which no theorem below exercises,
  are not re-assembled).
HTML parsing (BeautifulSoup) is declared out of scope by the spec; the
raw tag-scan result of `find_external_ressources` is therefore taken as
an input (`extractedRaw` below) and the in-repo cleanup pipeline
(`url_cleanup`, `rebuild_url`) is embedded faithfully on top of it.
-/

/-! ### Python string primitives -/

/-- Characters stripped by Python `str.strip()` (ASCII whitespace). -/
def pyIsSpace (c : Char) : Bool :=
  c = ' ' || c = '\t' || c = '\n' || c = '\r' || c = Char.ofNat 11 || c = Char.ofNat 12

def pyStripList (l : List Char) : List Char :=
  ((l.dropWhile pyIsSpace).reverse.dropWhile pyIsSpace).reverse

/-- Python `str.strip()`. -/
def pyStrip (s : String) : String := ⟨pyStripList s.data⟩

def hexVal (c : Char) : Option Nat :=
  if '0' ≤ c && c ≤ '9' then some (c.toNat - 48)
  else if 'a' ≤ c && c ≤ 'f' then some (c.toNat - 87)
  else if 'A' ≤ c && c ≤ 'F' then some (c.toNat - 55)
  else none

/-- Core of `urllib.parse.unquote_plus`: `+` becomes a space, a valid
`%XX` escape becomes the character with that byte value, anything else
is copied.  (CPython decodes consecutive escapes as UTF-8 bytes; the
theorems below only use ASCII escapes, where the two agree.) -/
def pyUnquotePlusList : List Char → List Char
  | [] => []
  | '+' :: rest => ' ' :: pyUnquotePlusList rest
  | '%' :: a :: b :: rest =>
    match hexVal a, hexVal b with
    | some ha, some hb => Char.ofNat (16 * ha + hb) :: pyUnquotePlusList rest
    | _, _ => '%' :: pyUnquotePlusList (a :: b :: rest)
  | c :: rest => c :: pyUnquotePlusList rest

def pyUnquotePlus (s : String) : String := ⟨pyUnquotePlusList s.data⟩

/-- Everything before the first occurrence of `sep` (the whole list when
`sep` is absent): Python `s.split(sep)[0]`. -/
def takeBefore (sep : Char) : List Char → List Char
  | [] => []
  | c :: rest => if c = sep then [] else c :: takeBefore sep rest

/-- Python `s.split(sep)[0]`. -/
def pySplitHead (s : String) (sep : Char) : String := ⟨takeBefore sep s.data⟩

/-- Split at the first occurrence of `sep`; `none` when absent. -/
def splitOnce (sep : Char) : List Char → Option (List Char × List Char)
  | [] => none
  | c :: rest =>
    if c = sep then some ([], rest)
    else match splitOnce sep rest with
      | some (a, b) => some (c :: a, b)
      | none => none

/-- Everything up to and including the last occurrence of `sep`
(empty when absent): Python `s[:s.rfind(sep) + 1]`. -/
def takeUpToLast (sep : Char) : List Char → List Char
  | [] => []
  | c :: rest =>
    let t := takeUpToLast sep rest
    if t.isEmpty then (if c = sep then [c] else []) else c :: t

/-- Everything after the last occurrence of `sep` (the whole list when
absent): Python `s.rpartition(sep)[2]`. -/
def afterLastOrAll (sep : Char) (l : List Char) : List Char :=
  if l.contains sep then (takeBefore sep l.reverse).reverse else l

/-- Python `s.replace(pat, '')` (left-to-right, non-overlapping). -/
def stripPattern (pat : List Char) : List Char → List Char
  | [] => []
  | c :: rest =>
    if pat ≠ [] ∧ pat.isPrefixOf (c :: rest)
    then stripPattern pat (rest.drop (pat.length - 1))
    else c :: stripPattern pat rest
termination_by l => l.length
decreasing_by
  · simp only [List.length_cons, List.length_drop]; omega
  · simp only [List.length_cons]; omega

def pyReplaceEmpty (s : String) (pat : String) : String :=
  ⟨stripPattern pat.data s.data⟩

/-- Python `s.startswith(pre)` (char-list based so the kernel can
evaluate it). -/
def strStarts (s pre : String) : Bool := pre.data.isPrefixOf s.data

/-- Python `s.endswith(suf)`. -/
def strEnds (s suf : String) : Bool := suf.data.isSuffixOf s.data

/-- Python string equality, char-list based. -/
def strEq (a b : String) : Bool := a.data == b.data

/-- Python list membership `s in l` for string lists. -/
def listHas (l : List String) (s : String) : Bool := l.any (fun x => strEq x s)

/-- Python substring membership `sub in s`. -/
def strContainsSub (s sub : String) : Bool :=
  s.data.tails.any (fun t => sub.data.isPrefixOf t)

/-- Python `str.lower()` (ASCII; the URLs in the theorems are ASCII). -/
def pyLower (s : String) : String := ⟨s.data.map Char.toLower⟩

def headIs (s : String) (cs : List Char) : Bool :=
  match s.data with
  | [] => false
  | c :: _ => cs.contains c

/-! ### urllib.parse -/

def isSchemeChar (c : Char) : Bool :=
  c.isAlpha || c.isDigit || c = '+' || c = '-' || c = '.'

structure UrlSplitR where
  scheme : String
  netloc : String
  path : String
  query : String
  fragment : String
deriving Repr, DecidableEq

/-- `urllib.parse.urlsplit` (the IPv6 bracket validation and the newer
control-character stripping, never hit by the inputs below, are
omitted). -/
def pyUrlsplit (url : String) : UrlSplitR :=
  let l := url.data
  let schemeRest :=
    match splitOnce ':' l with
    | some (bef, aft) =>
      if bef ≠ [] ∧ bef.all isSchemeChar then (bef.map Char.toLower, aft) else (([] : List Char), l)
    | none => ([], l)
  let scheme := schemeRest.1
  let rest0 := schemeRest.2
  let netlocRest :=
    if ['/', '/'].isPrefixOf rest0 then
      let r2 := rest0.drop 2
      let n := r2.takeWhile (fun c => c ≠ '/' && c ≠ '?' && c ≠ '#')
      (n, r2.drop n.length)
    else (([] : List Char), rest0)
  let netloc := netlocRest.1
  let rest1 := netlocRest.2
  let restFrag :=
    match splitOnce '#' rest1 with
    | some (a, b) => (a, b)
    | none => (rest1, ([] : List Char))
  let pathQuery :=
    match splitOnce '?' restFrag.1 with
    | some (a, b) => (a, b)
    | none => (restFrag.1, ([] : List Char))
  ⟨⟨scheme⟩, ⟨netloc⟩, ⟨pathQuery.1⟩, ⟨pathQuery.2⟩, ⟨restFrag.2⟩⟩

/-- `urllib.parse._splitparams`: split `;params` off the last path
segment. -/
def splitparams (path : List Char) : List Char × List Char :=
  if path.contains '/' then
    let pre := takeUpToLast '/' path
    let post := path.drop pre.length
    match splitOnce ';' post with
    | some (a, b) => (pre ++ a, b)
    | none => (path, [])
  else
    match splitOnce ';' path with
    | some (a, b) => (a, b)
    | none => (path, [])

structure ParseResultP where
  scheme : String
  netloc : String
  path : String
  params : String
  query : String
  fragment : String
deriving Repr, DecidableEq

/-- `urllib.parse.urlparse`. -/
def pyUrlparse (url : String) : ParseResultP :=
  let s := pyUrlsplit url
  let pp := splitparams s.path.data
  ⟨s.scheme, s.netloc, ⟨pp.1⟩, ⟨pp.2⟩, s.query, s.fragment⟩

/-- `ParseResult.geturl()` (`urlunparse`). -/
def pyGeturl (r : ParseResultP) : String :=
  let url0 := if r.params ≠ "" then r.path ++ ";" ++ r.params else r.path
  let url1 :=
    if r.netloc ≠ "" || strStarts url0 "//" then
      (if url0 ≠ "" && !(strStarts url0 "/") then "//" ++ r.netloc ++ "/" ++ url0
       else "//" ++ r.netloc ++ url0)
    else url0
  let url2 := if r.scheme ≠ "" then r.scheme ++ ":" ++ url1 else url1
  let url3 := if r.query ≠ "" then url2 ++ "?" ++ r.query else url2
  if r.fragment ≠ "" then url3 ++ "#" ++ r.fragment else url3

/-- `ParseResult.hostname`: userinfo and port stripped, lowercased
(`''` models CPython's `None` for an empty host). -/
def pyHostname (netloc : String) : String :=
  let hostinfo := afterLastOrAll '@' netloc.data
  let host :=
    match hostinfo with
    | '[' :: rest => takeBefore ']' rest
    | _ => takeBefore ':' hostinfo
  ⟨host.map Char.toLower⟩

/-! ### pathlib.Path(...).resolve() on POSIX paths -/

def splitAllChar (sep : Char) : List Char → List (List Char)
  | [] => [[]]
  | c :: rest =>
    let r := splitAllChar sep rest
    if c = sep then [] :: r
    else match r with
      | h :: t => (c :: h) :: t
      | [] => [[c]]

def posixResolveAux : List (List Char) → List (List Char) → List (List Char)
  | stack, [] => stack.reverse
  | stack, seg :: rest =>
    if seg = [] ∨ seg = ['.'] then posixResolveAux stack rest
    else if seg = ['.', '.'] then posixResolveAux stack.tail rest
    else posixResolveAux (seg :: stack) rest

/-- `str(Path(p).resolve())` for an absolute POSIX path `p` (no
symlinks): drops `.` and empty segments, pops on `..`, strips a
trailing slash.  The source only feeds it paths of already-absolute
URLs; for a relative `p` CPython would prepend the working directory
(the model just normalizes). -/
def pyPathResolve (p : String) : String :=
  let out := posixResolveAux [] (splitAllChar '/' p.data)
  let joined := out.foldl (fun acc s => acc ++ '/' :: s) []
  if joined = [] then "/" else ⟨joined⟩

/-! ### rebuild_url (parser.py lines 47-129) -/

/-- Embeds `rebuild_url`.  Where the source would raise (empty
`base_url` indexed at `[-1]`), the model takes the `rfind` branch,
which then yields the bare partial; no theorem below depends on that
case. -/
def rebuild_url (base_url : String) (partial0 : String) (known_urls : List String) : String :=
  let splitted_base_url := pyUrlparse base_url
  let part := pyUnquotePlus (pyStrip partial0)
  if part = "" then ""
  else
    let final0 :=
      if strStarts part "http://" || strStarts part "https://" then part
      else if strStarts part "//" then splitted_base_url.scheme ++ ":" ++ part
      else if strStarts part "/" || !(headIs part [';', '?', '#']) then
        if !(strStarts part "/") then
          if strEnds base_url "/" then base_url ++ part
          else (⟨takeUpToLast '/' base_url.data⟩ : String) ++ part
        else splitted_base_url.scheme ++ "://" ++ splitted_base_url.netloc ++ part
      else if strStarts part ";" then pySplitHead base_url ';' ++ part
      else if strStarts part "?" then pySplitHead base_url '?' ++ part
      else pySplitHead base_url '#' ++ part
    let final1 :=
      if !(listHas known_urls final0) then
        let f1 :=
          if strStarts final0 "https://" && strContainsSub final0 ":443"
          then pyReplaceEmpty final0 ":443" else final0
        if strStarts f1 "http://" && strContainsSub f1 ":80"
        then pyReplaceEmpty f1 ":80" else f1
      else final0
    let final2 :=
      if !(listHas known_urls final1) then
        let parsed := pyUrlparse final1
        if parsed.path ≠ "" then
          let resolved := pyPathResolve parsed.path
          let f := pyGeturl { parsed with path := resolved }
          if !(listHas known_urls f) && !(strEnds resolved "/") then
            pyGeturl { parsed with path := resolved ++ "/" }
          else f
        else pyGeturl { parsed with path := "/" }
      else final1
    if !(listHas known_urls final2) && splitted_base_url.fragment ≠ "" then
      pyGeturl { pyUrlparse final2 with fragment := splitted_base_url.fragment }
    else final2

/-! ### Cookies (URLNode.load_har_entry, parser.py lines 312-340) -/

structure PyCookie where
  name : String
  value : String
  domain : Option String := none
deriving Repr, DecidableEq

/-- Effective cookie domain (lines 323-328): the cookie's `domain`
attribute with a leading `.` stripped, when the attribute is present
and non-empty; otherwise the node hostname. -/
def effectiveCookieDomain (hostname : String) (c : PyCookie) : String :=
  match c.domain with
  | some d => if d ≠ "" then (if strStarts d "." then ⟨d.data.tail⟩ else d) else hostname
  | none => hostname

/-- One cookies_received entry `(cookie_domain, "name=value",
is_3rd_party)` (lines 318-332): third-party iff the hostname does not
end with the effective cookie domain. -/
def cookieEntry (hostname : String) (c : PyCookie) : String × String × Bool :=
  let cd := effectiveCookieDomain hostname c
  (cd, c.name ++ "=" ++ c.value, !(strEnds hostname cd))

/-- The cookies_received list built by the loop of lines 318-332. -/
def cookiesReceived (hostname : String) (cookies : List PyCookie) :
    List (String × String × Bool) :=
  cookies.map (cookieEntry hostname)

/-- set_third_party_cookies: initialized False (line 314) and set True
whenever a received cookie is marked third-party (line 330). -/
def setThirdPartyCookies (hostname : String) (cookies : List PyCookie) : Bool :=
  (cookiesReceived hostname cookies).any (fun e => e.2.2)

/-! ### MIME classification (lines 359-385) and context propagation -/

structure MimeFlags where
  js : Bool := false
  image : Bool := false
  css : Bool := false
  json : Bool := false
  html : Bool := false
  font : Bool := false
  octet_stream : Bool := false
  text : Bool := false
  video : Bool := false
  livestream : Bool := false
  unset_mimetype : Bool := false
  unknown_mimetype : Bool := false
  audio : Bool := false
  iframe : Bool := false
deriving Repr, DecidableEq, Inhabited

/-- The if/elif chain of lines 359-385 (first match wins).  `audio` and
`iframe` are never set here; only the propagation pass adds them. -/
def classifyMime (m : String) : MimeFlags :=
  if strContainsSub m "javascript" || strContainsSub m "ecmascript" then { js := true }
  else if strStarts m "image" then { image := true }
  else if strStarts m "text/css" then { css := true }
  else if strContainsSub m "json" then { json := true }
  else if strStarts m "text/html" then { html := true }
  else if strContainsSub m "font" then { font := true }
  else if strContainsSub m "octet-stream" then { octet_stream := true }
  else if strContainsSub m "text/plain" || strContainsSub m "xml" then { text := true }
  else if strContainsSub m "video" then { video := true }
  else if strContainsSub (pyLower m) "mpegurl" then { livestream := true }
  else if m = "" then { unset_mimetype := true }
  else { unknown_mimetype := true }

/-- Number of the twelve §4.4-step-8 category flags that are set
(`audio` and `iframe`, which only the propagation pass can add, are not
category flags). -/
def countMime (f : MimeFlags) : Nat :=
  f.js.toNat + f.image.toNat + f.css.toNat + f.json.toNat + f.html.toNat + f.font.toNat
    + f.octet_stream.toNat + f.text.toNat + f.video.toNat + f.livestream.toNat
    + f.unset_mimetype.toNat + f.unknown_mimetype.toNat

/-! ### Chromium _initiator (lines 390-404, 421-427) -/

/-- A Chromium initiator call stack: `callFrames` plus an optional
parent (a `None` parent is the `base` constructor). -/
inductive PyStack where
  | base (callFrames : List String)
  | withParent (callFrames : List String) (parent : PyStack)
deriving Repr, DecidableEq

/-- URLNode._find_initiator_in_stack (lines 421-427). -/
def findInitiatorInStack : PyStack → Option String
  | .base frames =>
    match frames with
    | u :: _ => some (pyUnquotePlus u)
    | [] => none
  | .withParent frames p =>
    match frames with
    | u :: _ => some (pyUnquotePlus u)
    | [] => findInitiatorInStack p

structure PyInitiator where
  type_ : String
  url : String := ""
  stack : Option PyStack := none
deriving Repr, DecidableEq

/-- The `_initiator` handling of lines 390-404; `Except.error` models
the `raise`.  A `script` initiator without a stack would be a KeyError
in Python, also an error here.  The returned option is the
`initiator_url` feature (only set when the found URL is truthy). -/
def loadInitiator : Option PyInitiator → Except String (Option String)
  | none => .ok none
  | some i =>
    if i.type_ = "other" then .ok none
    else if i.type_ = "parser" ∧ i.url ≠ "" then .ok (some (pyUnquotePlus i.url))
    else if i.type_ = "script" then
      match i.stack with
      | some s =>
        .ok (match findInitiatorInStack s with
             | some u => if u ≠ "" then some u else none
             | none => none)
      | none => .error "KeyError: stack"
    else if i.type_ = "redirect" then .error "Got a redirect!"
    else .error "unsupported initiator type"

/-! ### Redirect target resolution (lines 406-419) -/

structure RedirectInfo where
  redirect : Bool
  redirectUrl : Option String
  redirectToNothing : Bool
deriving Repr, DecidableEq

/-- Lines 406-419: for a non-empty response redirectURL, rebuild it
against the node name; store the rebuilt URL when it is a known request
URL, else keep the raw redirectURL and set redirect_to_nothing. -/
def loadRedirect (name : String) (redirectURL : String) (all_requests : List String) :
    RedirectInfo :=
  if redirectURL ≠ "" then
    let ru := rebuild_url name redirectURL all_requests
    if listHas all_requests ru then ⟨true, some ru, false⟩
    else ⟨true, some redirectURL, true⟩
  else ⟨false, none, false⟩

/-! ### url_cleanup / find_external_ressources (lines 133-212) -/

/-- The quote stripping of lines 142-148 (`[2:-2]`, `[1:-1]`, `[:-1]`
slices). -/
def stripQuotes (l : List Char) : List Char :=
  let bs := Char.ofNat 92
  let sq := Char.ofNat 39
  let dq := Char.ofNat 34
  let l1 := if [bs, sq].isPrefixOf l || [bs, dq].isPrefixOf l
            then ((l.drop 2).dropLast).dropLast else l
  let l2 := if [sq].isPrefixOf l1 || [dq].isPrefixOf l1 then (l1.drop 1).dropLast else l1
  if l2.getLast? = some sq ∨ l2.getLast? = some dq then l2.dropLast else l2

/-- url_cleanup (lines 133-154): skip data: URLs, strip whitespace and
quotes, re-resolve through rebuild_url, keep only http(s) results. -/
def url_cleanup (dict_to_clean : List (String × List String)) (base_url : String)
    (all_requests : List String) : List (String × List String) :=
  dict_to_clean.map (fun kv =>
    (kv.1, kv.2.filterMap (fun url =>
      if strStarts url "data" then none
      else
        let stripped := pyStrip url
        let to_attach := rebuild_url base_url ⟨stripQuotes stripped.data⟩ all_requests
        if strStarts to_attach "http" then some to_attach else none)))

/-- find_external_ressources (lines 157-212).  The BeautifulSoup tag
walk and the body regexes belong to the HTML parser, an assumed
external component per the spec; their raw per-category result is the
parameter `extractedRaw`.  The in-repo cleanup is applied to it. -/
def find_external_ressources (extractedRaw : List (String × List String))
    (base_url : String) (all_requests : List String) : List (String × List String) :=
  url_cleanup extractedRaw base_url all_requests

/-! ### HAR entries and URLNode.load_har_entry -/

structure HarEntry where
  url : String
  headers : List (String × String) := []
  requestCookies : List PyCookie := []
  responseCookies : List PyCookie := []
  contentText : String := ""
  mimeType : String := ""
  redirectURL : String := ""
  responseUrl : String := ""
  initiator : Option PyInitiator := none
  extractedRaw : List (String × List String) := []
deriving Repr, DecidableEq

/-- Case-insensitive request-header lookup (lines 304-308; a later
duplicate header overwrites the feature, hence foldl). -/
def headerLookupCI (headers : List (String × String)) (keyLower : String) : Option String :=
  headers.foldl (fun acc h => if strEq (pyLower h.1) keyLower then some h.2 else acc) none

structure UNodeD where
  name : String
  alt : String
  hostname : String
  referer : Option String := none
  userAgent : Option String := none
  cookiesRecv : List (String × String × Bool) := []
  set3rd : Option Bool := none
  flags : MimeFlags := {}
  emptyResponse : Bool := true
  external : Option (List (String × List String)) := none
  initiatorUrl : Option String := none
  redirect : Bool := false
  redirectUrl : Option String := none
  redirectToNothing : Bool := false
deriving Repr, DecidableEq

instance : Inhabited UNodeD := ⟨{ name := "", alt := "", hostname := "" }⟩

/-- URLNode.load_har_entry (lines 253-419) for the fields the claims
concern.  Timing, TLD classification, body hashing, filename and the
serializer skip sets are not modelled (no claim mentions them).
`all_requests` is `list(all_url_requests.keys())`: the percent-unquoted
request URLs of the capture. -/
def loadHarEntry (all_requests : List String) (e : HarEntry) : Except String UNodeD :=
  let name := pyUnquotePlus e.url
  let alt := pySplitHead name '#'
  let hostname := pyHostname (pyUrlparse name).netloc
  let referer := (headerLookupCI e.headers "referer").map pyUnquotePlus
  let userAgent := headerLookupCI e.headers "user-agent"
  let cookiesRecv :=
    if e.responseCookies ≠ [] then cookiesReceived hostname e.responseCookies else []
  let set3rd :=
    if e.responseCookies ≠ [] then some (setThirdPartyCookies hostname e.responseCookies)
    else none
  let emptyResponse := e.contentText = ""
  let external :=
    if e.contentText ≠ ""
    then some (find_external_ressources e.extractedRaw name all_requests) else none
  let flags := classifyMime e.mimeType
  match loadInitiator e.initiator with
  | .error msg => .error msg
  | .ok initiatorUrl =>
    let r := loadRedirect name e.redirectURL all_requests
    .ok { name, alt, hostname, referer, userAgent, cookiesRecv, set3rd, flags,
          emptyResponse, external, initiatorUrl,
          redirect := r.redirect, redirectUrl := r.redirectUrl,
          redirectToNothing := r.redirectToNothing }

/-- The key list of `all_url_requests` (line 680): percent-unquoted
request URLs in entry order (dict keys deduplicate; only membership is
consumed downstream, which deduplication does not change). -/
def allRequestsOf (entries : List HarEntry) : List String :=
  entries.map (fun e => pyUnquotePlus e.url)

def buildNodes (all_requests : List String) (entries : List HarEntry) :
    Except String (List UNodeD) :=
  entries.mapM (loadHarEntry all_requests)

/-! ### Association-list tables (defaultdict / dict of the source) -/

def alGet? {β : Type} : List (String × β) → String → Option β
  | [], _ => none
  | (k0, v) :: rest, k => if strEq k0 k then some v else alGet? rest k

def alGetD {β : Type} (t : List (String × List β)) (k : String) : List β :=
  (alGet? t k).getD []

/-- defaultdict(list) `t[k].append(v)` (creates the key at the end on
first use, as dict insertion order does). -/
def alAppend {β : Type} : List (String × List β) → String → β → List (String × List β)
  | [], k, v => [(k, [v])]
  | (k0, vs) :: rest, k, v =>
    if strEq k0 k then (k0, vs ++ [v]) :: rest else (k0, vs) :: alAppend rest k v

/-- dict.pop(k) (no-op when the key is missing; the source would raise
KeyError there, a case its guards keep unreachable). -/
def alPop {β : Type} : List (String × β) → String → List (String × β)
  | [], _ => []
  | (k0, v) :: rest, k => if strEq k0 k then rest else (k0, v) :: alPop rest k

/-- Python list.remove: drop the first occurrence. -/
def removeFirstStr : List String → String → List String
  | [], _ => []
  | x :: rest, v => if strEq x v then rest else x :: removeFirstStr rest v

/-! ### Har2Tree._load_url_entries (lines 787-816) -/

structure LoadedCapture where
  nodes : List UNodeD
  allRedirects : List String
  allReferer : List (String × List String)
  allInitiator : List (String × List String)
deriving Repr, DecidableEq

/-- Har2Tree._load_url_entries: build every URLNode and fill
all_redirects, all_initiator_url and all_referer.  A node whose referer
equals its own name is only warned about and NOT registered in
all_referer (lines 806-813).  pages_root is not modelled (no claim
concerns it). -/
def loadUrlEntries (all_requests : List String) (entries : List HarEntry) :
    Except String LoadedCapture :=
  entries.foldlM (fun acc e => do
    let n ← loadHarEntry all_requests e
    let allRedirects := match n.redirectUrl with
      | some ru => acc.allRedirects ++ [ru]
      | none => acc.allRedirects
    let allInitiator := match n.initiatorUrl with
      | some iu => alAppend acc.allInitiator iu n.name
      | none => acc.allInitiator
    let allReferer := match n.referer with
      | some r => if strEq r n.name then acc.allReferer else alAppend acc.allReferer r n.name
      | none => acc.allReferer
    pure { nodes := acc.nodes ++ [n], allRedirects, allReferer, allInitiator })
    ⟨[], [], [], []⟩

/-! ### External-resource context propagation (Har2Tree.__init__ lines 739-771) -/

/-- One tagging step of the propagation loop (independent `if`s in the
source; the match strings are disjoint). -/
def tagFlag (t : String) (f : MimeFlags) : MimeFlags :=
  let f := if t = "img" then { f with image := true } else f
  let f := if t = "script" then { f with js := true } else f
  let f := if t = "video" then { f with video := true } else f
  let f := if t = "audio" then { f with audio := true } else f
  let f := if t = "iframe" then { f with iframe := true } else f
  let f := if t = "embed" then { f with octet_stream := true } else f
  let f := if t = "source" then { f with octet_stream := true } else f
  let f := if t = "link" then { f with css := true } else f
  if t = "object" then { f with octet_stream := true } else f

/-- The categories node(s) named `url` get tagged with: every
(type, links) pair of any node's external_ressources whose link list
contains `url`.  (`all_url_requests[u]` is exactly the nodes whose name
is `u`, so iterating a bucket iterates the nodes with that name; a link
that is no node's name is skipped by the `url not in all_url_requests`
guard and contributes nothing here either.) -/
def externalTagsFor (nodes : List UNodeD) (url : String) : List String :=
  nodes.flatMap (fun n =>
    (n.external.getD []).flatMap (fun kv => if listHas kv.2 url then [kv.1] else []))

/-- The context-propagation pass: each node's flags are extended by the
tags collected for its name.  Setting a flag is idempotent and order
independent, so the per-node map is the loop of lines 739-771. -/
def propagate (nodes : List UNodeD) : List UNodeD :=
  nodes.map (fun m =>
    { m with flags := (externalTagsFor nodes m.name).foldl (fun fl t => tagFlag t fl) m.flags })

/-! ### Har2Tree._make_subtree (lines 886-946) -/

inductive PassTag where
  | start
  | redirect
  | initiator
  | refererExact
  | refererAlt
  | external
deriving Repr, DecidableEq

structure TreeCtx where
  nodes : List UNodeD
  allUrlRequests : List (String × List Nat)
deriving Repr, DecidableEq

def ctxNode (ctx : TreeCtx) (i : Nat) : UNodeD := ctx.nodes.getD i default

/-- all_url_requests (lines 680, 816): URL keys in entry order, bucket
= positions of the nodes carrying that name. -/
def bucketsOf (nodes : List UNodeD) : List (String × List Nat) :=
  nodes.enum.foldl (fun t ia => alAppend t ia.2.name ia.1) []

structure RState where
  nodesList : List Nat
  allRedirects : List String
  allReferer : List (String × List String)
  allInitiator : List (String × List String)
  edges : List (Nat × Nat × PassTag)
deriving Repr, DecidableEq

/-- Har2Tree._make_subtree.  Nodes are positions into `ctx.nodes`;
`toAttach = none` is the top-level call on the detached root.  Each
`add_child` is recorded as an edge `(parent, child, pass)`, the pass
being the one that produced the recursive call.  `fuel` bounds the
recursion depth (the Python recursion terminates because nodes_list
shrinks; fuel larger than the node count is always enough). -/
def makeSubtree (ctx : TreeCtx) :
    Nat → Nat → Option (List Nat) → PassTag → RState → RState
  | 0, _, _, _, st => st
  | Nat.succ fuel, root, toAttach, tag, st0 =>
    let unodes := toAttach.getD [root]
    let st1 :=
      match toAttach with
      | none => st0
      | some l => { st0 with edges := st0.edges ++ l.map (fun u => (root, u, tag)) }
    unodes.foldl (fun st unode =>
      let nd := ctxNode ctx unode
      if nd.redirect ∧ ¬ nd.redirectToNothing then
        let ru := nd.redirectUrl.getD ""
        if listHas st.allRedirects ru then
          let st2 := { st with allRedirects := removeFirstStr st.allRedirects ru }
          let matching := (alGetD ctx.allUrlRequests ru).filter (fun m => st2.nodesList.contains m)
          let st3 := { st2 with nodesList := st2.nodesList.filter (fun n => !(matching.contains n)) }
          makeSubtree ctx fuel unode (some matching) PassTag.redirect st3
        else st
      else
        let stA :=
          if alGetD st.allInitiator nd.name ≠ [] then
            let urls := alGetD st.allInitiator nd.name
            let stI := urls.foldl (fun st u =>
              let matching := (alGetD ctx.allUrlRequests u).filter
                (fun m => st.nodesList.contains m
                  && decide ((ctxNode ctx m).initiatorUrl = some nd.name))
              let st2 := { st with nodesList := st.nodesList.filter (fun n => !(matching.contains n)) }
              makeSubtree ctx fuel unode (some matching) PassTag.initiator st2) st
            if alGetD stI.allInitiator nd.name = []
            then { stI with allInitiator := alPop stI.allInitiator nd.name } else stI
          else st
        let stB :=
          if alGetD stA.allReferer nd.name ≠ [] then
            let urls := alGetD stA.allReferer nd.name
            let stR := urls.foldl (fun st u =>
              let matching := (alGetD ctx.allUrlRequests u).filter
                (fun m => st.nodesList.contains m
                  && decide ((ctxNode ctx m).referer = some nd.name))
              let st2 := { st with nodesList := st.nodesList.filter (fun n => !(matching.contains n)) }
              makeSubtree ctx fuel unode (some matching) PassTag.refererExact st2) stA
            if alGetD stR.allReferer nd.name = []
            then { stR with allReferer := alPop stR.allReferer nd.name } else stR
          else stA
        let stC :=
          if alGetD stB.allReferer nd.alt ≠ [] then
            let urls := alGetD stB.allReferer nd.alt
            let stR := urls.foldl (fun st u =>
              let matching := (alGetD ctx.allUrlRequests u).filter
                (fun m => st.nodesList.contains m
                  && decide ((ctxNode ctx m).referer = some nd.alt))
              let st2 := { st with nodesList := st.nodesList.filter (fun n => !(matching.contains n)) }
              makeSubtree ctx fuel unode (some matching) PassTag.refererAlt st2) stB
            if alGetD stR.allReferer nd.alt = []
            then { stR with allReferer := alPop stR.allReferer nd.alt } else stR
          else stB
        match nd.external with
        | none => stC
        | some ext => ext.foldl (fun st kv =>
            kv.2.foldl (fun st link =>
              if (alGet? ctx.allUrlRequests link).isSome then
                let matching := (alGetD ctx.allUrlRequests link).filter
                  (fun m => st.nodesList.contains m)
                let st2 := { st with nodesList := st.nodesList.filter (fun n => !(matching.contains n)) }
                makeSubtree ctx fuel unode (some matching) PassTag.external st2
              else st) st) stC
      ) st1

def har2TreeCtx (cap : LoadedCapture) : TreeCtx :=
  ⟨cap.nodes, bucketsOf cap.nodes⟩

/-- State at the start of make_tree: node 0 has become url_tree
(popped from nodes_list, line 773); the tables are as loaded. -/
def initialRState (cap : LoadedCapture) : RState :=
  { nodesList := (List.range cap.nodes.length).drop 1,
    allRedirects := cap.allRedirects,
    allReferer := cap.allReferer,
    allInitiator := cap.allInitiator,
    edges := [] }

/-- The primary traversal of make_tree (line 862): _make_subtree on the
root URL node. -/
def runMakeSubtree (cap : LoadedCapture) (fuel : Nat) : RState :=
  makeSubtree (har2TreeCtx cap) fuel 0 none PassTag.start (initialRState cap)

/-! ### HarFile.initial_redirects (lines 607-651) -/

/-- HarFile.__find_referer (lines 607-611): first header named exactly
`Referer`. -/
def findRefererHdr (e : HarEntry) : Option String :=
  match e.headers.find? (fun h => strEq h.1 "Referer") with
  | some h => some h.2
  | none => none

/-- HarFile.has_initial_redirects (lines 613-617).  (On an empty entry
list the source would raise IndexError; no theorem hits that case.) -/
def hasInitialRedirects (entries : List HarEntry) (finalRedirect : String) : Bool :=
  if finalRedirect ≠ "" then
    match entries with
    | e :: _ => !(strEq e.url finalRedirect)
    | [] => false
  else false

/-- One acceptance test of the initial_redirects walk (lines 628-641):
when the previously kept entry's response has a redirectURL, only the
rebuilt-redirect comparison runs; otherwise the Referer comparison
(with Python truthiness on the header value). -/
def acceptCandidate (prev e : HarEntry) : Bool :=
  if prev.redirectURL ≠ "" then
    strEq (rebuild_url prev.responseUrl prev.redirectURL [e.url]) e.url
  else
    match findRefererHdr e with
    | some r => r ≠ "" && strEq r prev.responseUrl
    | none => false

/-- The entry walk of initial_redirects: collected chain plus whether
the loop hit `break` (an accepted candidate equal to final_redirect). -/
def redirectWalk (finalRedirect : String) : HarEntry → List HarEntry → List String × Bool
  | _, [] => ([], false)
  | prev, e :: rest =>
    if acceptCandidate prev e then
      if strEq e.url finalRedirect then ([e.url], true)
      else
        let r := redirectWalk finalRedirect e rest
        (e.url :: r.1, r.2)
    else redirectWalk finalRedirect prev rest

structure InitialRedirectsR where
  chain : List String
  needTreeRedirects : Bool
deriving Repr, DecidableEq

/-- HarFile.initial_redirects (lines 619-651) with the
need_tree_redirects flag: if the walk never breaks on final_redirect,
the chain is replaced by `[final_redirect]` (for-else branch, lines
645-649). -/
def initialRedirects (entries : List HarEntry) (finalRedirect : String) : InitialRedirectsR :=
  if hasInitialRedirects entries finalRedirect then
    match entries with
    | e0 :: rest =>
      let r := redirectWalk finalRedirect e0 rest
      if r.2 then ⟨r.1, false⟩ else ⟨[finalRedirect], true⟩
    | [] => ⟨[], false⟩
  else ⟨[], false⟩

/-! ### CrawledTree construction (lines 949-972) -/

inductive CrawlErr where
  | har2TreeError
  | loadError (msg : String)
deriving Repr, DecidableEq

/-- CrawledTree.load_all_harfiles (lines 963-972): skip captures with
no entries, build the rest (a failure inside entry loading propagates
as its own exception, distinct from Har2TreeError). -/
def loadAllHarfiles : List (List HarEntry) → Except CrawlErr (List (List UNodeD))
  | [] => .ok []
  | har :: rest =>
    if har = [] then loadAllHarfiles rest
    else
      match buildNodes (allRequestsOf har) har with
      | .error msg => .error (.loadError msg)
      | .ok ns =>
        match loadAllHarfiles rest with
        | .error e => .error e
        | .ok tl => .ok (ns :: tl)

/-- CrawledTree.__init__ (lines 951-961): raise the distinct
Har2TreeError when no usable HAR remains after loading. -/
def crawledTreeInit (harfiles : List (List HarEntry)) : Except CrawlErr (List (List UNodeD)) :=
  match loadAllHarfiles harfiles with
  | .error e => .error e
  | .ok trees => if trees = [] then .error .har2TreeError else .ok trees

/-! ### CrawledTree.join_trees (lines 974-1003) -/

/-- A tree node as ete3 stores it for our purposes: the uuid feature,
the name, the children in attachment order. -/
inductive HNode where
  | mk (uuid : Nat) (name : String) (children : List HNode)

def HNode.uuid : HNode → Nat
  | .mk u _ _ => u

def HNode.name : HNode → String
  | .mk _ n _ => n

def HNode.children : HNode → List HNode
  | .mk _ _ c => c

/-- TreeNode.add_child: append to the children list. -/
def addChild : HNode → HNode → HNode
  | .mk u n cs, c => .mk u n (cs ++ [c])

/-- copy.deepcopy on a tree: a structurally identical object graph with
the same attribute values.  deepcopy runs no __init__, so the uuid
features of the copy are exactly those of the original — on tree
values that is the identity. -/
def deepcopy (t : HNode) : HNode := t

mutual
def uuidList : HNode → List Nat
  | .mk u _ cs => u :: uuidListL cs
def uuidListL : List HNode → List Nat
  | [] => []
  | c :: rest => uuidList c ++ uuidListL rest
end

/-- A capture as join_trees consumes it: its URL tree, its root URL and
its root_after_redirect (None when it has no initial redirect). -/
structure CaptureT where
  urlTree : HNode
  rootUrl : String
  rootAfterRedirect : Option String

/-- CrawledTree.join_trees (lines 983-1003) as a value-passing
recursion.  Python attaches the deep copy and then mutates it in place
through the recursive call; here the recursive call completes the copy
before it is attached, giving the same final tree.  Returns the updated
anchor and the remaining referers map; `fuel` bounds recursion depth.
(The final make_hostname_tree rebuild, line 1003, is outside this
model.) -/
def joinNode : Nat → List (String × List CaptureT) → CaptureT → HNode →
    HNode × List (String × List CaptureT)
  | 0, referers, _, anchor => (anchor, referers)
  | Nat.succ fuel, referers, cap, anchor =>
    let key := cap.rootAfterRedirect.getD cap.rootUrl
    match alGet? referers key with
    | none => (anchor, referers)
    | some subs =>
      if subs.isEmpty then (anchor, alPop referers key)
      else
        (subs.foldl (fun (acc : HNode × List (String × List CaptureT)) sub =>
          let r := joinNode fuel acc.2 sub (deepcopy sub.urlTree)
          (addChild acc.1 r.1, r.2)) (anchor, alPop referers key))

/-- Entry point of join_trees: root capture, anchor = its url_tree. -/
def joinTrees (fuel : Nat) (referers : List (String × List CaptureT)) (rootCap : CaptureT) :
    HNode × List (String × List CaptureT) :=
  joinNode fuel referers rootCap rootCap.urlTree

/-- All uuids of all capture trees still pending in a referers map. -/
def allCapUuids (referers : List (String × List CaptureT)) : List Nat :=
  referers.flatMap (fun kv => kv.2.flatMap (fun c => uuidList c.urlTree))

/-! ## C4 and C10: the attachment passes of _make_subtree -/

/-- The branch test of line 896: the node has `redirect` and not
`redirect_to_nothing`. -/
def takesRedirectBranch (ctx : TreeCtx) (p : Nat) : Prop :=
  (ctxNode ctx p).redirect = true ∧ ¬ (ctxNode ctx p).redirectToNothing = true

instance (ctx : TreeCtx) (p : Nat) : Decidable (takesRedirectBranch ctx p) := by
  unfold takesRedirectBranch
  infer_instance

def isRefTag (t : PassTag) : Prop := t = PassTag.refererExact ∨ t = PassTag.refererAlt

instance (t : PassTag) : Decidable (isRefTag t) := by
  unfold isRefTag
  infer_instance

def isElseTag (t : PassTag) : Prop :=
  t = PassTag.initiator ∨ t = PassTag.refererExact ∨ t = PassTag.refererAlt
    ∨ t = PassTag.external

instance (t : PassTag) : Decidable (isElseTag t) := by
  unfold isElseTag
  infer_instance

/-- Soundness of one recorded edge `(parent, child, pass)`:
referer-pass edges never point from a node to itself; initiator,
referer and external edges only hang off nodes that do NOT take the
redirect branch; redirect edges only hang off nodes that do. -/
def EdgeOK (ctx : TreeCtx) (e : Nat × Nat × PassTag) : Prop :=
  (isRefTag e.2.2 → e.1 ≠ e.2.1) ∧
  (isElseTag e.2.2 → ¬ takesRedirectBranch ctx e.1) ∧
  (e.2.2 = PassTag.redirect → takesRedirectBranch ctx e.1)

/-- The shared shape of the initiator/referer pass loops: for each URL
`u` of the table bucket, collect the still-pending candidates with the
matching feature, remove them from nodes_list and recurse.
Definitionally equal to the loops inside `makeSubtree`. -/
def passTableFold (ctx : TreeCtx) (fuel unode : Nat) (tag : PassTag) (pred : Nat → Bool)
    (urls : List String) (st : RState) : RState :=
  urls.foldl (fun st u =>
    let matching := (alGetD ctx.allUrlRequests u).filter
      (fun m => st.nodesList.contains m && pred m)
    let st2 := { st with nodesList := st.nodesList.filter (fun n => !(matching.contains n)) }
    makeSubtree ctx fuel unode (some matching) tag st2) st

/-- The initiator pass (lines 907-916). -/
def passInitiator (ctx : TreeCtx) (fuel unode : Nat) (st : RState) : RState :=
  if alGetD st.allInitiator (ctxNode ctx unode).name ≠ [] then
    if alGetD (passTableFold ctx fuel unode PassTag.initiator
        (fun m => decide ((ctxNode ctx m).initiatorUrl = some (ctxNode ctx unode).name))
        (alGetD st.allInitiator (ctxNode ctx unode).name) st).allInitiator
        (ctxNode ctx unode).name = []
    then { passTableFold ctx fuel unode PassTag.initiator
        (fun m => decide ((ctxNode ctx m).initiatorUrl = some (ctxNode ctx unode).name))
        (alGetD st.allInitiator (ctxNode ctx unode).name) st with
        allInitiator := alPop (passTableFold ctx fuel unode PassTag.initiator
          (fun m => decide ((ctxNode ctx m).initiatorUrl = some (ctxNode ctx unode).name))
          (alGetD st.allInitiator (ctxNode ctx unode).name) st).allInitiator
          (ctxNode ctx unode).name }
    else passTableFold ctx fuel unode PassTag.initiator
        (fun m => decide ((ctxNode ctx m).initiatorUrl = some (ctxNode ctx unode).name))
        (alGetD st.allInitiator (ctxNode ctx unode).name) st
  else st

/-- The two referer passes (lines 917-936), keyed by the node name or
its fragment-stripped variant. -/
def passReferer (ctx : TreeCtx) (fuel unode : Nat) (key : String) (tag : PassTag)
    (st : RState) : RState :=
  if alGetD st.allReferer key ≠ [] then
    if alGetD (passTableFold ctx fuel unode tag
        (fun m => decide ((ctxNode ctx m).referer = some key))
        (alGetD st.allReferer key) st).allReferer key = []
    then { passTableFold ctx fuel unode tag
        (fun m => decide ((ctxNode ctx m).referer = some key))
        (alGetD st.allReferer key) st with
        allReferer := alPop (passTableFold ctx fuel unode tag
          (fun m => decide ((ctxNode ctx m).referer = some key))
          (alGetD st.allReferer key) st).allReferer key }
    else passTableFold ctx fuel unode tag
        (fun m => decide ((ctxNode ctx m).referer = some key))
        (alGetD st.allReferer key) st
  else st

/-- The external-resources pass (lines 937-946). -/
def passExternal (ctx : TreeCtx) (fuel unode : Nat) (st : RState) : RState :=
  match (ctxNode ctx unode).external with
  | none => st
  | some ext => ext.foldl (fun st kv =>
      kv.2.foldl (fun st link =>
        if (alGet? ctx.allUrlRequests link).isSome then
          let matching := (alGetD ctx.allUrlRequests link).filter
            (fun m => st.nodesList.contains m)
          let st2 := { st with nodesList := st.nodesList.filter (fun n => !(matching.contains n)) }
          makeSubtree ctx fuel unode (some matching) PassTag.external st2
        else st) st) st

/-- The per-unode body of the _make_subtree loop, assembled from the
named passes; definitionally equal to the loop body of `makeSubtree`
(`makeSubtree_succ` below is proved by `rfl`). -/
def subtreeStep (ctx : TreeCtx) (fuel : Nat) (st : RState) (unode : Nat) : RState :=
  let nd := ctxNode ctx unode
  if nd.redirect ∧ ¬ nd.redirectToNothing then
    let ru := nd.redirectUrl.getD ""
    if listHas st.allRedirects ru then
      let st2 := { st with allRedirects := removeFirstStr st.allRedirects ru }
      let matching := (alGetD ctx.allUrlRequests ru).filter (fun m => st2.nodesList.contains m)
      let st3 := { st2 with nodesList := st2.nodesList.filter (fun n => !(matching.contains n)) }
      makeSubtree ctx fuel unode (some matching) PassTag.redirect st3
    else st
  else
    passExternal ctx fuel unode
      (passReferer ctx fuel unode nd.alt PassTag.refererAlt
        (passReferer ctx fuel unode nd.name PassTag.refererExact
          (passInitiator ctx fuel unode st)))

/-- The result of a _make_subtree call only shrinks nodes_list and only
adds sound edges (relative to the given base state). -/
def GoodSt (ctx : TreeCtx) (base s : RState) : Prop :=
  s.nodesList ⊆ base.nodesList ∧ ∀ e ∈ s.edges, e ∈ base.edges ∨ EdgeOK ctx e

/-- Induction-hypothesis package for `makeSubtree` at a given fuel. -/
def MSInv (ctx : TreeCtx) (fuel : Nat) : Prop :=
  ∀ (root : Nat) (ta : Option (List Nat)) (tag : PassTag) (st : RState),
    (∀ n ∈ ta.getD [root], n ∉ st.nodesList) →
    (∀ u ∈ ta.getD [], EdgeOK ctx (root, u, tag)) →
    GoodSt ctx st (makeSubtree ctx fuel root ta tag st)

def c4Entries : List HarEntry :=
  [{ url := "http://a/", redirectURL := "http://b/" },
   { url := "http://b/" },
   { url := "http://c/", headers := [("Referer", "http://a/")] }]

def c4Capture : LoadedCapture :=
  (loadUrlEntries (allRequestsOf c4Entries) c4Entries).toOption.getD ⟨[], [], [], []⟩

/-- A minimal two-node capture (root redirecting to the second node)
used to instantiate the amended C4 theorem. -/
def c4SmallCap : LoadedCapture :=
  ⟨[{ name := "http://a/", alt := "http://a/", hostname := "a", redirect := true,
      redirectUrl := some "http://b/", redirectToNothing := false },
    { name := "http://b/", alt := "http://b/", hostname := "b" }],
   ["http://b/"], [], []⟩

/-- The per-entry body of _load_url_entries, named for the proofs;
definitionally the foldlM step of `loadUrlEntries`. -/
def loadStep (all_requests : List String) (acc : LoadedCapture) (e : HarEntry) :
    Except String LoadedCapture := do
  let n ← loadHarEntry all_requests e
  let allRedirects := match n.redirectUrl with
    | some ru => acc.allRedirects ++ [ru]
    | none => acc.allRedirects
  let allInitiator := match n.initiatorUrl with
    | some iu => alAppend acc.allInitiator iu n.name
    | none => acc.allInitiator
  let allReferer := match n.referer with
    | some r => if strEq r n.name then acc.allReferer else alAppend acc.allReferer r n.name
    | none => acc.allReferer
  pure { nodes := acc.nodes ++ [n], allRedirects, allReferer, allInitiator }

def c10Entries : List HarEntry :=
  [{ url := "http://s/", headers := [("Referer", "http://s/")] }]

def c10Capture : LoadedCapture :=
  (loadUrlEntries (allRequestsOf c10Entries) c10Entries).toOption.getD ⟨[], [], [], []⟩

/-! ## Theorems -/

/-! ## Basic facts about the embedded primitives -/

theorem strEq_iff (a b : String) : strEq a b = true ↔ a = b := by
  constructor
  · intro h
    have hd : a.data = b.data := by simpa [strEq] using h
    calc a = ⟨a.data⟩ := rfl
      _ = ⟨b.data⟩ := congrArg String.mk hd
      _ = b := rfl
  · intro h
    subst h
    simp [strEq]

theorem listHas_iff (l : List String) (s : String) : listHas l s = true ↔ s ∈ l := by
  simp [listHas, List.any_eq_true, strEq_iff]

/-! ## C3: the boundary table of the URL normalizer -/

/-- C3, counterexample: with `known` empty, the path-normalization
step of rebuild_url re-appends a trailing slash (lines 112-115 run
whenever the result is not a known URL), so the first table row
already disagrees with the code: the code returns `https://c.d/y/`,
not the table's `https://c.d/y`. -/
theorem c3_rebuild_table_counterexample :
    rebuild_url "http://a.b/x" "https://c.d/y" [] ≠ "https://c.d/y" ∧
    rebuild_url "http://a.b/x" "https://c.d/y" [] = "https://c.d/y/" := by
  constructor
  · decide
  · decide

/-- C3, amended: with `known` empty the nine concrete table rows
evaluate to the values below: the empty-partial row returns the empty
string as the table says, but every non-empty row gets a trailing
slash appended to its path by the lexical-resolution retry, and the
fragment row additionally inherits the base fragment `f` (lines
121-127). -/
theorem c3_rebuild_table_amended :
    rebuild_url "http://a.b/x" "https://c.d/y" [] = "https://c.d/y/" ∧
    rebuild_url "http://a.b/x" "//c.d/y" [] = "http://c.d/y/" ∧
    rebuild_url "http://a.b/x/" "z.js" [] = "http://a.b/x/z.js/" ∧
    rebuild_url "http://a.b/x/y" "z.js" [] = "http://a.b/x/z.js/" ∧
    rebuild_url "http://a.b/x/y" "/z" [] = "http://a.b/z/" ∧
    rebuild_url "http://a.b/x?q=1" "?r=2" [] = "http://a.b/x/?r=2" ∧
    rebuild_url "http://a.b/x;p" ";q" [] = "http://a.b/x/;q" ∧
    rebuild_url "http://a.b/x#f" "#g" [] = "http://a.b/x/#f" ∧
    rebuild_url "https://a.b:443/" "" [] = "" := by
  refine ⟨?_, ?_, ?_, ?_, ?_, ?_, ?_, ?_, ?_⟩ <;> decide

/-! ## C1: third-party marking of received cookies -/

/-- C1, counterexample: for hostname `www.example.com` and a cookie
with domain `.example.com`, the effective cookie domain is
`example.com`; the hostname is NOT a suffix of that domain, so the
claim as stated would mark the cookie third-party, but the code (which
tests `hostname.endswith(cookie_domain)`, line 329 — the converse
direction) marks it first-party, and set_third_party_cookies stays
False. -/
theorem c1_third_party_counterexample :
    cookiesReceived "www.example.com"
        [{ name := "a", value := "b", domain := some ".example.com" }]
      = [("example.com", "a=b", false)] ∧
    strEnds "example.com" "www.example.com" = false ∧
    setThirdPartyCookies "www.example.com"
        [{ name := "a", value := "b", domain := some ".example.com" }] = false := by
  refine ⟨?_, ?_, ?_⟩ <;> decide

/-- C1, amended: a received cookie is marked third-party iff the
effective cookie domain (the first component of the stored triple) is
not a string suffix of the node hostname — `hostname.endswith(domain)`,
the converse of the claimed direction — and set_third_party_cookies is
true iff at least one received cookie is so marked. -/
theorem c1_third_party_amended (hostname : String) (cookies : List PyCookie) :
    (∀ e ∈ cookiesReceived hostname cookies, (e.2.2 = true ↔ ¬ strEnds hostname e.1 = true)) ∧
    (setThirdPartyCookies hostname cookies = true ↔
      ∃ e ∈ cookiesReceived hostname cookies, e.2.2 = true) := by
  constructor
  · intro e he
    simp only [cookiesReceived, List.mem_map] at he
    obtain ⟨c, _, rfl⟩ := he
    simp [cookieEntry]
  · simp [setThirdPartyCookies, List.any_eq_true]

theorem c1_third_party_amended_witness :
    setThirdPartyCookies "www.example.com"
        [{ name := "a", value := "b", domain := some "x.org" }] = true := by
  refine ((c1_third_party_amended "www.example.com"
    [{ name := "a", value := "b", domain := some "x.org" }]).2).mpr ?_
  exact ⟨("x.org", "a=b", true), by decide, rfl⟩

/-! ## C6: redirect soundness -/

/-- C6, counterexample: entry 1 requests `http://a/` and redirects to
the raw URL `http://b/%20z`; entry 2's raw request URL
`http://b/%2520z` percent-unquotes to exactly `http://b/%20z`, which is
therefore a known request URL.  rebuild_url unquotes the redirect
before matching, producing `http://b/ z/`, which is unknown, so the
node is flagged redirect_to_nothing — yet its stored redirect_url (the
raw redirectURL, line 417) IS the request URL of an entry in the
capture, contradicting the claim. -/
theorem c6_redirect_counterexample :
    pyUnquotePlus "http://b/%2520z" = "http://b/%20z" ∧
    (loadRedirect "http://a/" "http://b/%20z" ["http://a/", "http://b/%20z"]).redirectToNothing
      = true ∧
    (loadRedirect "http://a/" "http://b/%20z" ["http://a/", "http://b/%20z"]).redirectUrl
      = some "http://b/%20z" ∧
    "http://b/%20z" ∈ ["http://a/", "http://b/%20z"] := by
  refine ⟨?_, ?_, ?_, ?_⟩ <;> decide

/-- C6, amended: a non-empty response redirectURL always sets
redirect; when redirect_to_nothing is set it is the REBUILT redirect
URL that is not a known request URL, while the stored redirect_url is
the raw redirectURL (which can itself coincide with a known request
URL); without redirect_to_nothing the stored redirect_url is a known
request URL. -/
theorem c6_redirect_soundness_amended (name redirectURL : String)
    (all_requests : List String) (h : redirectURL ≠ "") :
    (loadRedirect name redirectURL all_requests).redirect = true ∧
    ((loadRedirect name redirectURL all_requests).redirectToNothing = true →
      rebuild_url name redirectURL all_requests ∉ all_requests ∧
      (loadRedirect name redirectURL all_requests).redirectUrl = some redirectURL) ∧
    ((loadRedirect name redirectURL all_requests).redirectToNothing = false →
      ∃ u ∈ all_requests, (loadRedirect name redirectURL all_requests).redirectUrl = some u) := by
  unfold loadRedirect
  rw [if_pos h]
  by_cases hm : listHas all_requests (rebuild_url name redirectURL all_requests) = true
  · rw [if_pos hm]
    refine ⟨rfl, fun hco => by simp at hco, fun _ => ?_⟩
    exact ⟨rebuild_url name redirectURL all_requests, (listHas_iff _ _).mp hm, rfl⟩
  · rw [if_neg hm]
    exact ⟨rfl, fun _ => ⟨fun hmem => hm ((listHas_iff _ _).mpr hmem), rfl⟩,
      fun hco => by simp at hco⟩

theorem c6_redirect_soundness_witness :
    (loadRedirect "http://a/" "/b" ["http://a/"]).redirect = true :=
  (c6_redirect_soundness_amended "http://a/" "/b" ["http://a/"] (by decide)).1

/-! ## C8: initiator error handling -/

/-- C8, counterexample: an `_initiator` of type `parser` with an empty
`url` falls through the whole elif chain (line 393 requires a truthy
url) into the final `raise` (line 404): load raises for a `parser`
initiator, contradicting the claim that `parser` never raises. -/
theorem c8_initiator_counterexample :
    loadInitiator (some { type_ := "parser", url := "", stack := none })
      = .error "unsupported initiator type" := by
  rfl

/-- C8, amended: load_har_entry succeeds on an `_initiator` exactly
when its type is `other`, or `parser` with a non-empty url, or
`script` with a stack present; it raises for `redirect`, for `parser`
with an empty url, for `script` without a stack, and for every other
type. -/
theorem c8_initiator_amended (i : PyInitiator) :
    (loadInitiator (some i)).isOk = true ↔
      (i.type_ = "other" ∨ (i.type_ = "parser" ∧ i.url ≠ "") ∨
        (i.type_ = "script" ∧ i.stack.isSome = true)) := by
  obtain ⟨t, u, st⟩ := i
  simp only [loadInitiator]
  split_ifs with h1 h2 h3 h4
  · simp [h1, Except.isOk, Except.toBool]
  · simp_all [Except.isOk, Except.toBool]
  · cases st <;> simp_all [Except.isOk, Except.toBool]
  · simp_all [Except.isOk, Except.toBool]
  · simp_all [Except.isOk, Except.toBool]

theorem c8_initiator_amended_witness :
    (loadInitiator (some { type_ := "other" })).isOk = true :=
  (c8_initiator_amended { type_ := "other" }).mpr (Or.inl rfl)

/-! ## C9: the distinct no-usable-HAR error -/

theorem loadAllHarfiles_ne_h2t (harfiles : List (List HarEntry)) :
    loadAllHarfiles harfiles ≠ .error .har2TreeError := by
  induction harfiles with
  | nil => simp [loadAllHarfiles]
  | cons h t ih =>
    rw [loadAllHarfiles]
    by_cases he : h = []
    · simpa [he] using ih
    · rw [if_neg he]
      cases buildNodes (allRequestsOf h) h with
      | error msg => simp
      | ok ns =>
        cases hl : loadAllHarfiles t with
        | error e =>
          intro hco
          simp only [hl] at hco
          exact ih (by rw [hl, ← hco])
        | ok tl => simp [hl]

theorem loadAllHarfiles_ok_nil_iff (harfiles : List (List HarEntry)) :
    loadAllHarfiles harfiles = .ok [] ↔ ∀ h ∈ harfiles, h = [] := by
  induction harfiles with
  | nil => simp [loadAllHarfiles]
  | cons h t ih =>
    rw [loadAllHarfiles]
    by_cases he : h = []
    · subst he
      rw [if_pos rfl, ih]
      constructor
      · intro ha x hx
        rcases List.mem_cons.mp hx with rfl | hx
        · rfl
        · exact ha x hx
      · intro ha x hx
        exact ha x (List.mem_cons_of_mem _ hx)
    · rw [if_neg he]
      constructor
      · intro hco
        cases hb : buildNodes (allRequestsOf h) h with
        | error msg => rw [hb] at hco; cases hco
        | ok ns =>
          rw [hb] at hco
          cases hl : loadAllHarfiles t with
          | error e => rw [hl] at hco; cases hco
          | ok tl => rw [hl] at hco; cases hco
      · intro ha
        exact absurd (ha h (List.mem_cons_self _ _)) he

/-- C9: constructing a CrawledTree raises the distinct Har2TreeError
(`No usable HAR files found.`) exactly when every given HAR has zero
entries; as soon as one HAR has entries that error is not raised
(captures without entries are merely skipped). -/
theorem c9_no_usable_har (harfiles : List (List HarEntry)) :
    crawledTreeInit harfiles = .error .har2TreeError ↔ ∀ h ∈ harfiles, h = [] := by
  rw [crawledTreeInit.eq_def]
  cases hl : loadAllHarfiles harfiles with
  | error e =>
    constructor
    · intro hco
      injection hco with h1
      subst h1
      exact absurd hl (loadAllHarfiles_ne_h2t harfiles)
    · intro ha
      have hok := (loadAllHarfiles_ok_nil_iff harfiles).mpr ha
      rw [hl] at hok
      cases hok
  | ok trees =>
    by_cases ht : trees = []
    · subst ht
      simp only [if_pos rfl]
      rw [← loadAllHarfiles_ok_nil_iff harfiles, hl]
      simp
    · simp only [if_neg ht]
      constructor
      · intro hco; cases hco
      · intro ha
        rw [(loadAllHarfiles_ok_nil_iff harfiles).mpr ha] at hl
        injection hl with h1
        exact absurd h1.symm ht

theorem c9_no_usable_har_witness :
    crawledTreeInit [[], []] = .error .har2TreeError :=
  (c9_no_usable_har [[], []]).mpr (by decide)

/-! ## C7: the initial_redirects walk -/

/-- C7, counterexample: entry 0 (`http://a/`) carries a redirectURL
that rebuilds to entry 2's URL (`http://c/`, the final redirect).
Entry 1 (`http://b/`) has a Referer equal to entry 0's response URL —
condition (b) of the claim — yet it is NOT appended: because the
previously kept entry has a non-empty redirectURL, the code only runs
comparison (a) and `continue`s on mismatch (lines 628-636), never
consulting the Referer.  The resulting chain is `["http://c/"]`. -/
theorem c7_initial_redirects_counterexample :
    initialRedirects
        [{ url := "http://a/", responseUrl := "http://a/", redirectURL := "http://c/" },
         { url := "http://b/", headers := [("Referer", "http://a/")] },
         { url := "http://c/" }] "http://c/"
      = ⟨["http://c/"], false⟩ ∧
    findRefererHdr { url := "http://b/", headers := [("Referer", "http://a/")] }
      = some "http://a/" ∧
    "http://b/" ∉ (initialRedirects
        [{ url := "http://a/", responseUrl := "http://a/", redirectURL := "http://c/" },
         { url := "http://b/", headers := [("Referer", "http://a/")] },
         { url := "http://c/" }] "http://c/").chain := by
  refine ⟨?_, ?_, ?_⟩ <;> decide

/-- C7, amended: a candidate is appended iff: when the previously kept
entry's response has a non-empty redirectURL, the redirectURL rebuilt
against that response's URL equals the candidate's request URL (the
Referer is then never consulted); only when the previous kept entry has
an empty redirectURL is the candidate accepted on a non-empty Referer
equal to the previous kept entry's response URL.  The walk stops when
an ACCEPTED candidate equals final_redirect; a skipped candidate keeps
the previous entry and the walk continues. -/
theorem c7_initial_redirects_amended (finalRedirect : String) (prev e : HarEntry)
    (rest : List HarEntry) :
    (acceptCandidate prev e = true ↔
      (if prev.redirectURL ≠ ""
       then rebuild_url prev.responseUrl prev.redirectURL [e.url] = e.url
       else ∃ r, findRefererHdr e = some r ∧ r ≠ "" ∧ r = prev.responseUrl)) ∧
    (acceptCandidate prev e = false →
      redirectWalk finalRedirect prev (e :: rest) = redirectWalk finalRedirect prev rest) ∧
    (acceptCandidate prev e = true → e.url = finalRedirect →
      redirectWalk finalRedirect prev (e :: rest) = ([e.url], true)) ∧
    (acceptCandidate prev e = true → e.url ≠ finalRedirect →
      redirectWalk finalRedirect prev (e :: rest)
        = (e.url :: (redirectWalk finalRedirect e rest).1,
           (redirectWalk finalRedirect e rest).2)) := by
  refine ⟨?_, ?_, ?_, ?_⟩
  · unfold acceptCandidate
    split
    · exact strEq_iff _ _
    · cases hr : findRefererHdr e with
      | none => simp
      | some r =>
        simp only [Bool.and_eq_true, strEq_iff]
        constructor
        · rintro ⟨hne, hEq⟩
          exact ⟨r, rfl, by simpa using hne, hEq⟩
        · rintro ⟨r9, hr9, hne, hEq⟩
          injection hr9 with h9
          subst h9
          exact ⟨by simpa using hne, hEq⟩
  · intro hacc
    rw [redirectWalk]
    simp [hacc]
  · intro hacc hfin
    rw [redirectWalk]
    simp [hacc, (strEq_iff e.url finalRedirect).mpr hfin]
  · intro hacc hfin
    rw [redirectWalk]
    have : strEq e.url finalRedirect = false := by
      cases hs : strEq e.url finalRedirect
      · rfl
      · exact absurd ((strEq_iff _ _).mp hs) hfin
    simp [hacc, this]

theorem c7_initial_redirects_amended_witness :
    redirectWalk "http://c/"
        { url := "http://a/", responseUrl := "http://a/", redirectURL := "http://c/" }
        [{ url := "http://b/", headers := [("Referer", "http://a/")] }]
      = redirectWalk "http://c/"
        { url := "http://a/", responseUrl := "http://a/", redirectURL := "http://c/" } [] :=
  (c7_initial_redirects_amended "http://c/"
    { url := "http://a/", responseUrl := "http://a/", redirectURL := "http://c/" }
    { url := "http://b/", headers := [("Referer", "http://a/")] } []).2.1 (by decide)

/-! ## C2: MIME category flags -/

set_option maxHeartbeats 1000000 in
theorem countMime_classifyMime (m : String) : countMime (classifyMime m) = 1 := by
  unfold classifyMime
  split_ifs <;> rfl

theorem countMime_set_image (g : MimeFlags) : countMime g ≤ countMime { g with image := true } := by
  obtain ⟨a1, a2, a3, a4, a5, a6, a7, a8, a9, a10, a11, a12, a13, a14⟩ := g
  simp only [countMime]
  cases a2 <;> simp

theorem countMime_set_js (g : MimeFlags) : countMime g ≤ countMime { g with js := true } := by
  obtain ⟨a1, a2, a3, a4, a5, a6, a7, a8, a9, a10, a11, a12, a13, a14⟩ := g
  simp only [countMime]
  cases a1 <;> simp

theorem countMime_set_video (g : MimeFlags) : countMime g ≤ countMime { g with video := true } := by
  obtain ⟨a1, a2, a3, a4, a5, a6, a7, a8, a9, a10, a11, a12, a13, a14⟩ := g
  simp only [countMime]
  cases a9 <;> simp

theorem countMime_set_octet (g : MimeFlags) :
    countMime g ≤ countMime { g with octet_stream := true } := by
  obtain ⟨a1, a2, a3, a4, a5, a6, a7, a8, a9, a10, a11, a12, a13, a14⟩ := g
  simp only [countMime]
  cases a7 <;> simp

theorem countMime_set_css (g : MimeFlags) : countMime g ≤ countMime { g with css := true } := by
  obtain ⟨a1, a2, a3, a4, a5, a6, a7, a8, a9, a10, a11, a12, a13, a14⟩ := g
  simp only [countMime]
  cases a3 <;> simp

theorem countMime_set_audio (g : MimeFlags) : countMime g ≤ countMime { g with audio := true } := by
  obtain ⟨a1, a2, a3, a4, a5, a6, a7, a8, a9, a10, a11, a12, a13, a14⟩ := g
  exact le_rfl

theorem countMime_set_iframe (g : MimeFlags) :
    countMime g ≤ countMime { g with iframe := true } := by
  obtain ⟨a1, a2, a3, a4, a5, a6, a7, a8, a9, a10, a11, a12, a13, a14⟩ := g
  exact le_rfl

/-- tagFlag as a fold of its nine conditional updates (definitional). -/
theorem tagFlag_eq_fold (t : String) (f : MimeFlags) :
    tagFlag t f =
      ([(fun g => if t = "img" then { g with image := true } else g),
        (fun g => if t = "script" then { g with js := true } else g),
        (fun g => if t = "video" then { g with video := true } else g),
        (fun g => if t = "audio" then { g with audio := true } else g),
        (fun g => if t = "iframe" then { g with iframe := true } else g),
        (fun g => if t = "embed" then { g with octet_stream := true } else g),
        (fun g => if t = "source" then { g with octet_stream := true } else g),
        (fun g => if t = "link" then { g with css := true } else g),
        (fun g => if t = "object" then { g with octet_stream := true } else g)
       ].foldl (fun g s => s g) f) := rfl

theorem countMime_foldSteps (steps : List (MimeFlags → MimeFlags))
    (h : ∀ s ∈ steps, ∀ g, countMime g ≤ countMime (s g)) (f : MimeFlags) :
    countMime f ≤ countMime (steps.foldl (fun g s => s g) f) := by
  induction steps generalizing f with
  | nil => exact le_rfl
  | cons s rest ih =>
    exact le_trans (h s (List.mem_cons_self _ _) f)
      (ih (fun s2 hs2 g => h s2 (List.mem_cons_of_mem _ hs2) g) (s f))

/-- The context-propagation tagging never unsets a flag: the category
count cannot decrease. -/
theorem countMime_tagFlag_le (t : String) (f : MimeFlags) :
    countMime f ≤ countMime (tagFlag t f) := by
  rw [tagFlag_eq_fold]
  refine countMime_foldSteps _ ?_ f
  intro s hs g
  simp only [List.mem_cons, List.not_mem_nil, or_false] at hs
  rcases hs with rfl | rfl | rfl | rfl | rfl | rfl | rfl | rfl | rfl
  all_goals dsimp only
  all_goals split
  all_goals first
    | exact le_rfl
    | exact countMime_set_image _
    | exact countMime_set_js _
    | exact countMime_set_video _
    | exact countMime_set_audio _
    | exact countMime_set_iframe _
    | exact countMime_set_octet _
    | exact countMime_set_css _

theorem countMime_foldTags_le (tags : List String) (f : MimeFlags) :
    countMime f ≤ countMime (tags.foldl (fun fl t => tagFlag t fl) f) := by
  induction tags generalizing f with
  | nil => exact le_rfl
  | cons t rest ih => exact le_trans (countMime_tagFlag_le t f) (ih (tagFlag t f))

theorem mapM_ok_mem {α β : Type} (f : α → Except String β) :
    ∀ (l : List α) (res : List β), l.mapM f = .ok res → ∀ b ∈ res, ∃ a ∈ l, f a = .ok b := by
  intro l
  induction l with
  | nil =>
    intro res h b hb
    rw [List.mapM_nil] at h
    injection h with h
    subst h
    cases hb
  | cons a l ih =>
    intro res h b hb
    rw [List.mapM_cons] at h
    cases hfa : f a with
    | error msg => rw [hfa] at h; simp [Bind.bind, Except.bind] at h
    | ok b0 =>
      rw [hfa] at h
      cases hml : l.mapM f with
      | error msg => rw [hml] at h; simp [Bind.bind, Except.bind] at h
      | ok bs =>
        rw [hml] at h
        simp only [Bind.bind, Except.bind, pure, Except.pure] at h
        injection h with h
        subst h
        rcases List.mem_cons.mp hb with rfl | hb2
        · exact ⟨a, List.mem_cons_self _ _, hfa⟩
        · obtain ⟨a2, ha2, hfa2⟩ := ih bs hml b hb2
          exact ⟨a2, List.mem_cons_of_mem _ ha2, hfa2⟩

theorem loadHarEntry_flags (all_requests : List String) (e : HarEntry) (n : UNodeD)
    (h : loadHarEntry all_requests e = .ok n) : n.flags = classifyMime e.mimeType := by
  unfold loadHarEntry at h
  cases hi : loadInitiator e.initiator with
  | error msg => rw [hi] at h; cases h
  | ok iu =>
    rw [hi] at h
    injection h with h
    subst h
    rfl

/-- C2, counterexample: a one-entry capture whose text/html body lists
the entry's own URL under a `script` tag.  After URLNode building the
node carries exactly `html`; the context-propagation pass (lines
739-771) then also sets `js`, so after the full construction the node
carries TWO of the twelve category flags. -/
theorem c2_mime_counterexample :
    Except.map (fun ns => ((propagate ns).map (fun n => (n.flags.html, n.flags.js, countMime n.flags))))
      (buildNodes ["http://a/"]
        [{ url := "http://a/", contentText := "x", mimeType := "text/html",
           extractedRaw := [("script", ["http://a/"])] }])
      = .ok [(true, true, 2)] := by
  rfl

/-- C2, amended: immediately after URLNode building every node carries
exactly one of the twelve MIME category flags; the external-resource
context-propagation pass only ADDS flags (image, js, video,
octet_stream, css — plus audio and iframe, which are outside the
twelve), so after the full construction every node carries at least
one, but possibly more than one, category flag. -/
theorem c2_mime_amended (all_requests : List String) (entries : List HarEntry)
    (ns : List UNodeD) (h : buildNodes all_requests entries = .ok ns) :
    (∀ n ∈ ns, countMime n.flags = 1) ∧ (∀ n ∈ propagate ns, 1 ≤ countMime n.flags) := by
  have h1 : ∀ n ∈ ns, countMime n.flags = 1 := by
    intro n hn
    obtain ⟨e, _, hfe⟩ := mapM_ok_mem (loadHarEntry all_requests) entries ns h n hn
    rw [loadHarEntry_flags all_requests e n hfe]
    exact countMime_classifyMime e.mimeType
  refine ⟨h1, ?_⟩
  intro n hn
  simp only [propagate, List.mem_map] at hn
  obtain ⟨m, hm, rfl⟩ := hn
  have h2 := countMime_foldTags_le (externalTagsFor ns m.name) m.flags
  rw [h1 m hm] at h2
  exact h2

theorem c2_mime_amended_witness :
    countMime
      ((((buildNodes ["http://u/"]
            [{ url := "http://u/", mimeType := "text/html" }]).toOption.getD []).getD 0
          default).flags) = 1 :=
  (c2_mime_amended ["http://u/"] [{ url := "http://u/", mimeType := "text/html" }] _ rfl).1 _
    (by decide)

/-! ## C5: multi-capture stitching and uuid freshness -/

theorem uuidListL_append (xs ys : List HNode) :
    uuidListL (xs ++ ys) = uuidListL xs ++ uuidListL ys := by
  induction xs with
  | nil => rfl
  | cons c rest ih =>
    show uuidList c ++ uuidListL (rest ++ ys) = (uuidList c ++ uuidListL rest) ++ uuidListL ys
    rw [ih, List.append_assoc]

theorem uuidList_addChild (a c : HNode) :
    uuidList (addChild a c) = uuidList a ++ uuidList c := by
  cases a with
  | mk u n cs =>
    show u :: uuidListL (cs ++ [c]) = (u :: uuidListL cs) ++ uuidList c
    rw [uuidListL_append]
    simp [uuidListL]

theorem mem_allCapUuids (t : List (String × List CaptureT)) (u : Nat) :
    u ∈ allCapUuids t ↔ ∃ kv ∈ t, ∃ c ∈ kv.2, u ∈ uuidList c.urlTree := by
  simp [allCapUuids, List.mem_flatMap]

theorem alGet?_mem {β : Type} (t : List (String × β)) (k : String) (v : β)
    (h : alGet? t k = some v) : ∃ k2, (k2, v) ∈ t := by
  induction t with
  | nil => cases h
  | cons kv rest ih =>
    obtain ⟨k0, v0⟩ := kv
    rw [alGet?] at h
    by_cases hk : strEq k0 k = true
    · rw [if_pos hk] at h
      injection h with h
      subst h
      exact ⟨k0, List.mem_cons_self _ _⟩
    · rw [if_neg hk] at h
      obtain ⟨k2, hm⟩ := ih h
      exact ⟨k2, List.mem_cons_of_mem _ hm⟩

theorem alPop_mem {β : Type} (t : List (String × β)) (k : String) (kv : String × β)
    (h : kv ∈ alPop t k) : kv ∈ t := by
  induction t with
  | nil => cases h
  | cons kv0 rest ih =>
    rw [alPop] at h
    by_cases hk : strEq kv0.1 k = true
    · rw [if_pos hk] at h
      exact List.mem_cons_of_mem _ h
    · rw [if_neg hk] at h
      rcases List.mem_cons.mp h with rfl | h2
      · exact List.mem_cons_self _ _
      · exact List.mem_cons_of_mem _ (ih h2)

theorem allCapUuids_alPop (t : List (String × List CaptureT)) (k : String) (u : Nat)
    (h : u ∈ allCapUuids (alPop t k)) : u ∈ allCapUuids t := by
  rw [mem_allCapUuids] at h ⊢
  obtain ⟨kv, hkv, c, hc, hu⟩ := h
  exact ⟨kv, alPop_mem t k kv hkv, c, hc, hu⟩

/-- C5, counterexample: stitching capture B (whose URL tree has uuid 1)
under capture A, the attached copy produced by copy.deepcopy carries
the SAME uuid 1 as the original sub-capture tree — deepcopy copies the
uuid feature and never draws a fresh one — so the uuids of the joined
tree's attached copies are not distinct from those of the original. -/
theorem c5_join_counterexample :
    uuidList (joinTrees 5 [("http://a/", [⟨HNode.mk 1 "http://b/" [], "http://b/", none⟩])]
        ⟨HNode.mk 0 "http://a/" [], "http://a/", none⟩).1 = [0, 1] ∧
    uuidList (HNode.mk 1 "http://b/" []) = [1] ∧ (1 : Nat) ∈ ([1] : List Nat) := by
  refine ⟨rfl, rfl, by decide⟩

/-- C5, amended: join_trees deep-copies every attached sub-capture
tree before linking, and the copy shares the original's uuids (deepcopy
copies attribute values and runs no __init__, so NO fresh uuid appears:
every uuid in the joined tree is a uuid of the parent anchor or of an
original sub-capture tree); the original capture trees themselves are
left unchanged by the stitch. -/
theorem c5_join_amended (fuel : Nat) :
    ∀ (referers : List (String × List CaptureT)) (cap : CaptureT) (anchor : HNode),
      (∀ u ∈ uuidList (joinNode fuel referers cap anchor).1,
          u ∈ uuidList anchor ∨ u ∈ allCapUuids referers) ∧
      (∀ u ∈ allCapUuids (joinNode fuel referers cap anchor).2, u ∈ allCapUuids referers) ∧
      (∀ t : HNode, uuidList (deepcopy t) = uuidList t) := by
  induction fuel with
  | zero =>
    intro referers cap anchor
    exact ⟨fun u hu => Or.inl hu, fun u hu => hu, fun _ => rfl⟩
  | succ fuel ih =>
    intro referers cap anchor
    have main :
        (∀ u ∈ uuidList (joinNode (fuel + 1) referers cap anchor).1,
            u ∈ uuidList anchor ∨ u ∈ allCapUuids referers) ∧
        (∀ u ∈ allCapUuids (joinNode (fuel + 1) referers cap anchor).2,
            u ∈ allCapUuids referers) := by
      cases hg : alGet? referers (cap.rootAfterRedirect.getD cap.rootUrl) with
      | none =>
        simp only [joinNode, hg]
        exact ⟨fun u hu => Or.inl hu, fun u hu => hu⟩
      | some subs =>
        by_cases hs : subs.isEmpty = true
        · simp only [joinNode, hg, if_pos hs]
          exact ⟨fun u hu => Or.inl hu, fun u hu => allCapUuids_alPop _ _ u hu⟩
        · simp only [joinNode, hg, if_neg hs]
          have key :
              ∀ (l : List CaptureT) (acc : HNode × List (String × List CaptureT)),
                (∀ sub ∈ l, ∀ u ∈ uuidList sub.urlTree, u ∈ allCapUuids referers) →
                (∀ u ∈ uuidList acc.1, u ∈ uuidList anchor ∨ u ∈ allCapUuids referers) →
                (∀ u ∈ allCapUuids acc.2, u ∈ allCapUuids referers) →
                (∀ u ∈ uuidList (l.foldl
                    (fun acc sub =>
                      let r := joinNode fuel acc.2 sub (deepcopy sub.urlTree)
                      (addChild acc.1 r.1, r.2)) acc).1,
                    u ∈ uuidList anchor ∨ u ∈ allCapUuids referers) ∧
                (∀ u ∈ allCapUuids (l.foldl
                    (fun acc sub =>
                      let r := joinNode fuel acc.2 sub (deepcopy sub.urlTree)
                      (addChild acc.1 r.1, r.2)) acc).2,
                    u ∈ allCapUuids referers) := by
            intro l
            induction l with
            | nil => exact fun acc _ h1 h2 => ⟨h1, h2⟩
            | cons sub rest ihl =>
              intro acc hl h1 h2
              refine ihl _ (fun s hs2 => hl s (List.mem_cons_of_mem _ hs2)) ?_ ?_
              · intro u hu
                rw [uuidList_addChild, List.mem_append] at hu
                rcases hu with hu | hu
                · exact h1 u hu
                · rcases (ih acc.2 sub (deepcopy sub.urlTree)).1 u hu with h | h
                  · exact Or.inr (hl sub (List.mem_cons_self _ _) u h)
                  · exact Or.inr (h2 u h)
              · intro u hu
                exact h2 u ((ih acc.2 sub (deepcopy sub.urlTree)).2.1 u hu)
          have hsubs : ∀ sub ∈ subs, ∀ u ∈ uuidList sub.urlTree, u ∈ allCapUuids referers := by
            intro sub hsub u hu
            obtain ⟨k2, hmem⟩ := alGet?_mem referers _ subs hg
            exact (mem_allCapUuids referers u).mpr ⟨(k2, subs), hmem, sub, hsub, hu⟩
          exact key subs (anchor, alPop referers (cap.rootAfterRedirect.getD cap.rootUrl))
            hsubs (fun u hu => Or.inl hu) (fun u hu => allCapUuids_alPop _ _ u hu)
    exact ⟨main.1, main.2, fun _ => rfl⟩

theorem c5_join_amended_witness :
    (0 : Nat) ∈ uuidList (HNode.mk 0 "r" []) ∨
      (0 : Nat) ∈ allCapUuids [("k", [⟨HNode.mk 1 "s" [], "s", none⟩])] :=
  (c5_join_amended 3 [("k", [⟨HNode.mk 1 "s" [], "s", none⟩])]
    ⟨HNode.mk 0 "r" [], "r", none⟩ (HNode.mk 0 "r" [])).1 0
    (by
      show (0 : Nat) ∈ uuidList (joinNode 3 [("k", [⟨HNode.mk 1 "s" [], "s", none⟩])]
        ⟨HNode.mk 0 "r" [], "r", none⟩ (HNode.mk 0 "r" [])).1
      decide)

theorem makeSubtree_succ (ctx : TreeCtx) (fuel root : Nat) (toAttach : Option (List Nat))
    (tag : PassTag) (st0 : RState) :
    makeSubtree ctx (fuel + 1) root toAttach tag st0 =
      (toAttach.getD [root]).foldl (subtreeStep ctx fuel)
        (match toAttach with
         | none => st0
         | some l => { st0 with edges := st0.edges ++ l.map (fun u => (root, u, tag)) }) := rfl

theorem not_isRefTag_initiator : ¬ isRefTag PassTag.initiator := by decide

theorem not_isRefTag_redirect : ¬ isRefTag PassTag.redirect := by decide

theorem not_isRefTag_external : ¬ isRefTag PassTag.external := by decide

theorem not_isElseTag_redirect : ¬ isElseTag PassTag.redirect := by decide

theorem initiator_ne_redirect : PassTag.initiator ≠ PassTag.redirect := by decide

theorem external_ne_redirect : PassTag.external ≠ PassTag.redirect := by decide

theorem refererExact_ne_redirect : PassTag.refererExact ≠ PassTag.redirect := by decide

theorem refererAlt_ne_redirect : PassTag.refererAlt ≠ PassTag.redirect := by decide

theorem elseTag_refererExact : isElseTag PassTag.refererExact := by decide

theorem elseTag_refererAlt : isElseTag PassTag.refererAlt := by decide

theorem GoodSt_refl (ctx : TreeCtx) (s : RState) : GoodSt ctx s s :=
  ⟨fun _ hx => hx, fun _ he => Or.inl he⟩

theorem GoodSt_comp {ctx : TreeCtx} {a b c : RState}
    (h1 : GoodSt ctx a b) (h2 : GoodSt ctx b c) : GoodSt ctx a c := by
  refine ⟨fun x hx => h1.1 (h2.1 hx), fun e he => ?_⟩
  rcases h2.2 e he with h | h
  · exact h1.2 e h
  · exact Or.inr h

theorem foldl_inv {σ α : Type} (f : σ → α → σ) (P : σ → Prop) :
    ∀ (l : List α) (base : σ), P base → (∀ s a, a ∈ l → P s → P (f s a)) →
      P (List.foldl f base l) := by
  intro l
  induction l with
  | nil => exact fun base hP _ => hP
  | cons a rest ih =>
    intro base hP hstep
    exact ih (f base a) (hstep base a (List.mem_cons_self _ _) hP)
      (fun s b hb hs => hstep s b (List.mem_cons_of_mem _ hb) hs)

theorem attachCall_good {ctx : TreeCtx} {fuel : Nat} (h : MSInv ctx fuel)
    (unode : Nat) (tag : PassTag) (s : RState) (matching : List Nat)
    (hok : ∀ u ∈ matching, EdgeOK ctx (unode, u, tag)) :
    GoodSt ctx s (makeSubtree ctx fuel unode (some matching) tag
      { s with nodesList := s.nodesList.filter (fun n => !(matching.contains n)) }) := by
  have hn : ∀ n ∈ (some matching).getD [unode],
      n ∉ ({ s with nodesList := s.nodesList.filter (fun n => !(matching.contains n)) }
        : RState).nodesList := by
    intro n hmem hin
    have hp := (List.mem_filter.mp hin).2
    rw [Bool.not_eq_true'] at hp
    have hc : matching.contains n = true := List.elem_iff.mpr hmem
    rw [hc] at hp
    cases hp
  have h2 := h unode (some matching) tag _ hn (fun u hu => hok u hu)
  refine GoodSt_comp ?_ h2
  exact ⟨fun x hx => (List.mem_filter.mp hx).1, fun e he => Or.inl he⟩

theorem passTableFold_good {ctx : TreeCtx} {fuel : Nat} (h : MSInv ctx fuel)
    (unode : Nat) (tag : PassTag) (pred : Nat → Bool) (s0 : RState)
    (hok : ∀ m ∈ s0.nodesList, EdgeOK ctx (unode, m, tag)) (urls : List String) :
    GoodSt ctx s0 (passTableFold ctx fuel unode tag pred urls s0) := by
  rw [passTableFold]
  refine foldl_inv _ (GoodSt ctx s0) urls s0 (GoodSt_refl ctx s0) ?_
  intro s u _ hP
  refine GoodSt_comp hP ?_
  refine attachCall_good h unode tag s _ ?_
  intro m hm
  have hmem := List.mem_filter.mp hm
  have hand := hmem.2
  rw [Bool.and_eq_true] at hand
  have hms : m ∈ s.nodesList := List.elem_iff.mp hand.1
  exact hok m (hP.1 hms)

theorem passInitiator_good {ctx : TreeCtx} {fuel : Nat} (h : MSInv ctx fuel)
    (unode : Nat) (st : RState) (hred : ¬ takesRedirectBranch ctx unode) :
    GoodSt ctx st (passInitiator ctx fuel unode st) := by
  rw [passInitiator]
  split
  · have hfold := passTableFold_good h unode PassTag.initiator
      (fun m => decide ((ctxNode ctx m).initiatorUrl = some (ctxNode ctx unode).name)) st
      (fun m _ => ⟨fun hrt => absurd hrt not_isRefTag_initiator, fun _ => hred,
        fun hco => absurd hco initiator_ne_redirect⟩)
      (alGetD st.allInitiator (ctxNode ctx unode).name)
    split
    · exact ⟨hfold.1, hfold.2⟩
    · exact hfold
  · exact GoodSt_refl ctx st

theorem passReferer_good {ctx : TreeCtx} {fuel : Nat} (h : MSInv ctx fuel)
    (unode : Nat) (key : String) (tag : PassTag) (st : RState)
    (hred : ¬ takesRedirectBranch ctx unode)
    (hnr : ¬ tag = PassTag.redirect) (hu : unode ∉ st.nodesList) :
    GoodSt ctx st (passReferer ctx fuel unode key tag st) := by
  rw [passReferer]
  split
  · have hfold := passTableFold_good h unode tag
      (fun m => decide ((ctxNode ctx m).referer = some key)) st
      (fun m hm => ⟨by intro _ hequ; have hequ2 : unode = m := hequ; subst hequ2; exact hu hm,
        fun _ => hred, fun hco => absurd hco hnr⟩)
      (alGetD st.allReferer key)
    split
    · exact ⟨hfold.1, hfold.2⟩
    · exact hfold
  · exact GoodSt_refl ctx st

theorem passExternal_good {ctx : TreeCtx} {fuel : Nat} (h : MSInv ctx fuel)
    (unode : Nat) (st : RState) (hred : ¬ takesRedirectBranch ctx unode) :
    GoodSt ctx st (passExternal ctx fuel unode st) := by
  rw [passExternal]
  cases (ctxNode ctx unode).external with
  | none => exact GoodSt_refl ctx st
  | some ext =>
    refine foldl_inv _ (GoodSt ctx st) ext st (GoodSt_refl ctx st) ?_
    intro s kv _ hP
    refine foldl_inv _ (GoodSt ctx st) kv.2 s hP ?_
    intro s2 link _ hP2
    split
    · refine GoodSt_comp hP2 ?_
      refine attachCall_good h unode PassTag.external s2 _ ?_
      intro m _
      exact ⟨fun hrt => absurd hrt not_isRefTag_external, fun _ => hred,
        fun hco => absurd hco external_ne_redirect⟩
    · exact hP2

theorem subtreeStep_good {ctx : TreeCtx} {fuel : Nat} (h : MSInv ctx fuel)
    (s : RState) (unode : Nat) (hu : unode ∉ s.nodesList) :
    GoodSt ctx s (subtreeStep ctx fuel s unode) := by
  rw [subtreeStep]
  by_cases hred : (ctxNode ctx unode).redirect = true
      ∧ ¬ (ctxNode ctx unode).redirectToNothing = true
  · rw [if_pos hred]
    by_cases hr : listHas s.allRedirects ((ctxNode ctx unode).redirectUrl.getD "") = true
    · rw [if_pos hr]
      have hpre : GoodSt ctx s { s with allRedirects := removeFirstStr s.allRedirects ((ctxNode ctx unode).redirectUrl.getD "") } := ⟨fun x hx => hx, fun e he => Or.inl he⟩
      refine GoodSt_comp hpre ?_
      refine attachCall_good h unode PassTag.redirect _ _ ?_
      intro u _
      exact ⟨fun hrt => absurd hrt not_isRefTag_redirect,
        fun hel => absurd hel not_isElseTag_redirect, fun _ => hred⟩
    · rw [if_neg hr]
      exact GoodSt_refl ctx s
  · rw [if_neg hred]
    have g1 := passInitiator_good h unode s hred
    have g2 := passReferer_good h unode (ctxNode ctx unode).name PassTag.refererExact _
      hred refererExact_ne_redirect (fun hx => hu (g1.1 hx))
    have g3 := passReferer_good h unode (ctxNode ctx unode).alt PassTag.refererAlt _
      hred refererAlt_ne_redirect (fun hx => hu (g1.1 (g2.1 hx)))
    have g4 := passExternal_good h unode (passReferer ctx fuel unode (ctxNode ctx unode).alt
      PassTag.refererAlt (passReferer ctx fuel unode (ctxNode ctx unode).name
        PassTag.refererExact (passInitiator ctx fuel unode s))) hred
    exact GoodSt_comp (GoodSt_comp (GoodSt_comp g1 g2) g3) g4

/-- The master invariant of _make_subtree: assuming the nodes being
attached are no longer pending and the entry edges are sound, the call
only shrinks nodes_list and every new edge is sound (`EdgeOK`). -/
theorem makeSubtree_inv (ctx : TreeCtx) : ∀ (fuel : Nat), MSInv ctx fuel := by
  intro fuel
  induction fuel with
  | zero =>
    intro root ta tag st _ _
    exact GoodSt_refl ctx st
  | succ fuel ih =>
    intro root ta tag st hnodes hentry
    rw [makeSubtree_succ]
    cases ta with
    | none =>
      simp only [Option.getD] at hnodes ⊢
      have hu : root ∉ st.nodesList := hnodes root (List.mem_cons_self _ _)
      exact subtreeStep_good ih st root hu
    | some l =>
      simp only [Option.getD] at hnodes hentry ⊢
      have hbase : GoodSt ctx st
          { st with edges := st.edges ++ l.map (fun u => (root, u, tag)) } := by
        refine ⟨fun x hx => hx, fun e he => ?_⟩
        rcases List.mem_append.mp he with he | he
        · exact Or.inl he
        · obtain ⟨u, hul, rfl⟩ := List.mem_map.mp he
          exact Or.inr (hentry u hul)
      refine foldl_inv _ (GoodSt ctx st) l _ hbase ?_
      intro s a ha hP
      refine GoodSt_comp hP ?_
      exact subtreeStep_good ih s a (fun hx => hnodes a ha (hP.1 hx))

theorem zero_not_mem_range_drop (k : Nat) : 0 ∉ (List.range k).drop 1 := by
  cases k with
  | zero => simp
  | succ n =>
    rw [List.range_succ_eq_map]
    intro h
    simp only [List.drop_succ_cons, List.drop_zero] at h
    obtain ⟨x, _, hx⟩ := List.mem_map.mp h
    cases hx

/-- C4 (amended): inside _make_subtree, a node that takes the redirect
branch (redirect set, redirect_to_nothing absent) undergoes ONLY the
redirect pass — every initiator, referer or external-resources edge
hangs off a node that does NOT take the redirect branch, and every
redirect edge hangs off a node that does.  (For non-redirect nodes the
four remaining passes run in the fixed order initiator → exact referer
→ fragment-stripped referer → external resources, each consuming its
matches before the next, as `subtreeStep` exhibits.) -/
theorem c4_attachment_passes_amended (cap : LoadedCapture) (fuel : Nat)
    (p c : Nat) (t : PassTag) (h : (p, c, t) ∈ (runMakeSubtree cap fuel).edges) :
    (t = PassTag.redirect → takesRedirectBranch (har2TreeCtx cap) p) ∧
    (isElseTag t → ¬ takesRedirectBranch (har2TreeCtx cap) p) := by
  have hn : ∀ n ∈ (none : Option (List Nat)).getD [0], n ∉ (initialRState cap).nodesList := by
    intro n hm
    rcases List.mem_cons.mp hm with rfl | hm2
    · exact zero_not_mem_range_drop _
    · cases hm2
  have he : ∀ u ∈ (none : Option (List Nat)).getD [],
      EdgeOK (har2TreeCtx cap) (0, u, PassTag.start) := by
    intro u hm
    cases hm
  have inv := makeSubtree_inv (har2TreeCtx cap) fuel 0 none PassTag.start
    (initialRState cap) hn he
  rcases inv.2 (p, c, t) h with hmem | hok
  · cases hmem
  · exact ⟨hok.2.2, hok.2.1⟩

/-- C4, counterexample: a three-entry capture where the root
`http://a/` both redirects to `http://b/` (resolvable) and is the
referer of the pending node `http://c/`.  The claim says the root, a
node with a resolvable redirect, still undergoes the referer passes and
so attaches `http://c/`; in the code the initiator/referer/external
passes sit in the `else` of the redirect branch (lines 896-906 vs
907-946), so the run produces only the redirect edge and `http://c/`
stays pending. -/
theorem c4_attachment_passes_counterexample :
    (runMakeSubtree c4Capture 10).edges = [(0, 1, PassTag.redirect)] ∧
    (runMakeSubtree c4Capture 10).nodesList = [2] ∧
    alGetD c4Capture.allReferer "http://a/" = ["http://c/"] ∧
    (ctxNode (har2TreeCtx c4Capture) 2).referer = some "http://a/" ∧
    (ctxNode (har2TreeCtx c4Capture) 0).name = "http://a/" ∧
    takesRedirectBranch (har2TreeCtx c4Capture) 0 ∧
    2 ∈ (initialRState c4Capture).nodesList := by
  refine ⟨?_, ?_, ?_, ?_, ?_, ?_, ?_⟩ <;> decide

theorem c4_attachment_passes_amended_witness :
    takesRedirectBranch (har2TreeCtx c4SmallCap) 0 :=
  (c4_attachment_passes_amended c4SmallCap 3 0 1 PassTag.redirect (by decide)).1 rfl

/-! ## C10: self-referring entries never registered, no self-attachment -/

theorem mem_alGetD_alAppend (t : List (String × List String)) (k v u x : String) :
    x ∈ alGetD (alAppend t k v) u → x ∈ alGetD t u ∨ (k = u ∧ x = v) := by
  induction t with
  | nil =>
    intro h
    simp only [alAppend, alGetD, alGet?] at h
    by_cases hk : strEq k u = true
    · rw [if_pos hk] at h
      simp only [Option.getD] at h
      rcases List.mem_cons.mp h with h2 | h2
      · exact Or.inr ⟨(strEq_iff k u).mp hk, h2⟩
      · cases h2
    · rw [if_neg hk] at h
      simp only [Option.getD] at h
      cases h
  | cons kv rest ih =>
    obtain ⟨k0, vs⟩ := kv
    intro h
    rw [alAppend] at h
    by_cases hk0k : strEq k0 k = true
    · rw [if_pos hk0k] at h
      rw [alGetD, alGet?] at h
      by_cases hk0u : strEq k0 u = true
      · rw [if_pos hk0u] at h
        simp only [Option.getD] at h
        rcases List.mem_append.mp h with h2 | h2
        · left
          rw [alGetD, alGet?, if_pos hk0u]
          exact h2
        · right
          have hxv : x = v := by simpa using h2
          have hku : k = u := by
            have e1 := (strEq_iff k0 k).mp hk0k
            have e2 := (strEq_iff k0 u).mp hk0u
            rw [← e1, e2]
          exact ⟨hku, hxv⟩
      · rw [if_neg hk0u] at h
        left
        rw [alGetD, alGet?, if_neg hk0u]
        exact h
    · rw [if_neg hk0k] at h
      rw [alGetD, alGet?] at h
      by_cases hk0u : strEq k0 u = true
      · rw [if_pos hk0u] at h
        left
        rw [alGetD, alGet?, if_pos hk0u]
        exact h
      · rw [if_neg hk0u] at h
        rcases ih h with h2 | h2
        · left
          rw [alGetD, alGet?, if_neg hk0u]
          exact h2
        · exact Or.inr h2

theorem loadUrlEntries_eq (all_requests : List String) (entries : List HarEntry) :
    loadUrlEntries all_requests entries =
      entries.foldlM (loadStep all_requests) ⟨[], [], [], []⟩ := rfl

theorem loadUrlEntries_aux (all_requests : List String) :
    ∀ (entries : List HarEntry) (acc cap : LoadedCapture),
      (∀ u, u ∉ alGetD acc.allReferer u) →
      entries.foldlM (loadStep all_requests) acc = .ok cap →
      ∀ u, u ∉ alGetD cap.allReferer u := by
  intro entries
  induction entries with
  | nil =>
    intro acc cap hinv h
    rw [List.foldlM_nil] at h
    injection h with h
    subst h
    exact hinv
  | cons e rest ih =>
    intro acc cap hinv h
    rw [List.foldlM_cons] at h
    cases hn : loadHarEntry all_requests e with
    | error msg =>
      rw [loadStep.eq_def] at h
      rw [hn] at h
      simp [Bind.bind, Except.bind] at h
    | ok n =>
      rw [loadStep.eq_def] at h
      rw [hn] at h
      simp only [Bind.bind, Except.bind, pure, Except.pure] at h
      refine ih _ cap ?_ h
      intro u hu
      dsimp only at hu
      cases hr : n.referer with
      | none =>
        simp only [hr] at hu
        exact hinv u hu
      | some r =>
        simp only [hr] at hu
        by_cases hrn : strEq r n.name = true
        · rw [if_pos hrn] at hu
          exact hinv u hu
        · rw [if_neg hrn] at hu
          rcases mem_alGetD_alAppend acc.allReferer r n.name u u hu with h2 | h2
          · exact hinv u h2
          · exact hrn ((strEq_iff r n.name).mpr (h2.1.trans h2.2))

/-- C10: a HAR entry whose Referer equals its own request URL is not
registered in all_referer (the table never maps a URL to a list
containing that same URL), and the exact-referer and fragment-stripped
referer passes of _make_subtree never attach a node as a child of
itself (every referer-pass edge joins two distinct nodes). -/
theorem c10_no_self_referer :
    (∀ (all_requests : List String) (entries : List HarEntry) (cap : LoadedCapture)
        (u : String), loadUrlEntries all_requests entries = .ok cap →
        u ∉ alGetD cap.allReferer u) ∧
    (∀ (cap : LoadedCapture) (fuel p c : Nat) (t : PassTag),
        (p, c, t) ∈ (runMakeSubtree cap fuel).edges → isRefTag t → p ≠ c) := by
  constructor
  · intro rq entries cap u h
    rw [loadUrlEntries_eq] at h
    refine loadUrlEntries_aux rq entries ⟨[], [], [], []⟩ cap ?_ h u
    intro u2 h2
    cases h2
  · intro cap fuel p c t hmem hrt
    have hn : ∀ n ∈ (none : Option (List Nat)).getD [0],
        n ∉ (initialRState cap).nodesList := by
      intro n hm
      rcases List.mem_cons.mp hm with rfl | hm2
      · exact zero_not_mem_range_drop _
      · cases hm2
    have he : ∀ u ∈ (none : Option (List Nat)).getD [],
        EdgeOK (har2TreeCtx cap) (0, u, PassTag.start) := by
      intro u hm
      cases hm
    have inv := makeSubtree_inv (har2TreeCtx cap) fuel 0 none PassTag.start
      (initialRState cap) hn he
    rcases inv.2 (p, c, t) hmem with h2 | hok
    · cases h2
    · exact hok.1 hrt

theorem c10_no_self_referer_witness :
    "http://s/" ∉ alGetD c10Capture.allReferer "http://s/" :=
  c10_no_self_referer.1 (allRequestsOf c10Entries) c10Entries c10Capture "http://s/" (by rfl)

end Har2Tree
